import Mathlib

/-!
Verification development for the aggregation-and-detection engine of the
spotify-rediscover repository (src/spotify_analysis.py, with the inline
variant in src/spotify_rediscover_cli.py).

The Python code is shallowly embedded:
* timestamps are UTC epoch seconds (`Int`); calendar fields are derived by
  exact civil-calendar arithmetic, mirroring `datetime`'s year/month fields;
* Python `dict`/`defaultdict`/`Counter` values are insertion-ordered
  association lists (`List (key × value)`), matching Python's documented
  iteration order;
* float arithmetic is modelled exactly over `ℚ` (and `ℝ` where a square
  root occurs);
* the ambient wall-clock reads `datetime.now(timezone.utc)` inside
  `months_since` and `analyze_dormant_artists` are modelled by passing the
  value the clock returns as an explicit `now : Int` argument.
-/

/-- Association-list lookup with default, mirroring Python `dict.get(k, d)` /
`Counter.__getitem__` (which defaults to 0 without inserting). -/
def alistGetD {α β : Type} [DecidableEq α] (l : List (α × β)) (k : α) (d : β) : β :=
  match l with
  | [] => d
  | (k', v) :: t => if k' = k then v else alistGetD t k d

/-- Association-list lookup, mirroring Python `dict.get(k)` returning `None`
when absent. -/
def alistLookup {α β : Type} [DecidableEq α] (l : List (α × β)) (k : α) : Option β :=
  match l with
  | [] => none
  | (k', v) :: t => if k' = k then some v else alistLookup t k

/-- Association-list store, mirroring Python `d[k] = v`: replaces in place if
the key is present (keeping its position), else appends, matching Python's
insertion-ordered dicts. -/
def alistSet {α β : Type} [DecidableEq α] (l : List (α × β)) (k : α) (v : β) :
    List (α × β) :=
  match l with
  | [] => [(k, v)]
  | (k', v') :: t => if k' = k then (k, v) :: t else (k', v') :: alistSet t k v

/-- Keys of an association list, in iteration order. -/
def alistKeys {α β : Type} (l : List (α × β)) : List α := l.map Prod.fst

/-- A calendar month, as the pair (year, month); the code's `'%Y-%m'` string
keys are in order-preserving bijection with these pairs for the 4-digit years
`datetime` supports. -/
abbrev MonthKey := Int × Int

/-- A monthly play-count series: Python `Counter` keyed by month. -/
abbrev Counter := List (MonthKey × Nat)

/-- Sum of the values of a monthly counter, as in `sum(counter.values())`. -/
def csum (c : Counter) : Nat := (c.map Prod.snd).sum

/-- Bump a counter at a key by `n`, as in `counter[mk] += n`. -/
def cbump (c : Counter) (mk : MonthKey) (n : Nat) : Counter :=
  alistSet c mk (alistGetD c mk 0 + n)

/-- Days-to-civil-date conversion (proleptic Gregorian calendar, Howard
Hinnant's algorithm), giving (year, month, day) for a count of days since
1970-01-01; this is exactly the calendar `datetime` uses. -/
def civilFromDays (z0 : Int) : Int × Int × Int :=
  let z := z0 + 719468
  let era := z.fdiv 146097
  let doe := z - era * 146097
  let yoe := (doe - doe / 1460 + doe / 36524 - doe / 146096) / 365
  let y := yoe + era * 400
  let doy := doe - (365 * yoe + yoe / 4 - yoe / 100)
  let mp := (5 * doy + 2) / 153
  let d := doy - (153 * mp + 2) / 5 + 1
  let m := mp + (if mp < 10 then 3 else -9)
  (y + (if m ≤ 2 then 1 else 0), m, d)

/-- Days since the epoch of a UTC timestamp in seconds (`timedelta` floor). -/
def tsDays (t : Int) : Int := t.fdiv 86400

/-- The `.year` field of a UTC timestamp. -/
def tsYear (t : Int) : Int := (civilFromDays (tsDays t)).1

/-- The `.month` field of a UTC timestamp. -/
def tsMonth (t : Int) : Int := (civilFromDays (tsDays t)).2.1

/-- `month_key(dt)`: the `'%Y-%m'` month bin of a UTC timestamp, modelled as
the (year, month) pair. -/
def month_key (t : Int) : MonthKey := (tsYear t, tsMonth t)

/-- Epoch seconds of `datetime.min` (0001-01-01T00:00:00), the `zero_dt`
sentinel seeded into the running `max` for last-play tracking. -/
def zeroDtSec : Int := -62135596800

/-- Epoch seconds of `datetime.max` (9999-12-31T23:59:59(.999999)), the
sentinel seeded into the running `min` for first-play tracking. -/
def maxDtSec : Int := 253402300799

/-- Python `max(a, b)` on timestamps: keeps the first argument unless the
second is strictly greater. -/
def pyMax (a b : Int) : Int := if a < b then b else a

/-- Python `min(a, b)` on timestamps: keeps the first argument unless the
second is strictly smaller. -/
def pyMin (a b : Int) : Int := if b < a then b else a

/-- One normalized play event, as produced by `filter_music_rows`: a UTC
timestamp (epoch seconds), a duration in ms, and track/album/artist metadata
(empty string when absent).  `filter_music_rows` additionally tags every
event with `plays = 1`, so the aggregation's `m.get("plays", 1)` is always 1
and is embedded as `+ 1`. -/
structure Event where
  ts : Int
  ms : Int
  track : String
  album : String
  artist : String
deriving DecidableEq, Repr

/-- `m["artist"] or "<unknown>"`: the artist key of an event, with the empty
string replaced by the sentinel. -/
def eKey (e : Event) : String := if e.artist = "" then "<unknown>" else e.artist

/-- `m["album"] or "<unknown>"`: the album key of an event. -/
def alKey (e : Event) : String := if e.album = "" then "<unknown>" else e.album

/-- The aggregate maps built by `compute_artist_stats` (one pass). -/
structure Stats where
  artist_month_counts : List (String × Counter)
  album_month_counts : List ((String × String) × Counter)
  artist_last_play : List (String × Int)
  album_last_play : List ((String × String) × Int)
  artist_first_play : List (String × Int)
  artist_month_total_counts : List (String × Counter)
  artist_total_ms : List (String × Int)
deriving Repr

/-- The empty aggregates (all maps start empty). -/
def emptyStats : Stats := ⟨[], [], [], [], [], [], []⟩

/-- The per-event body of the aggregation loop in `compute_artist_stats`. -/
def statsStep (s : Stats) (e : Event) : Stats :=
  let mk := month_key e.ts
  let a := eKey e
  let al := alKey e
  { artist_month_counts := alistSet s.artist_month_counts a
      (cbump (alistGetD s.artist_month_counts a []) mk 1)
    album_month_counts := alistSet s.album_month_counts (a, al)
      (cbump (alistGetD s.album_month_counts (a, al) []) mk 1)
    artist_month_total_counts := alistSet s.artist_month_total_counts a
      (cbump (alistGetD s.artist_month_total_counts a []) mk 1)
    artist_total_ms := alistSet s.artist_total_ms a
      (alistGetD s.artist_total_ms a 0 + e.ms)
    artist_last_play := alistSet s.artist_last_play a
      (pyMax (alistGetD s.artist_last_play a zeroDtSec) e.ts)
    album_last_play := alistSet s.album_last_play (a, al)
      (pyMax (alistGetD s.album_last_play (a, al) zeroDtSec) e.ts)
    artist_first_play := alistSet s.artist_first_play a
      (pyMin (alistGetD s.artist_first_play a maxDtSec) e.ts) }

/-- `compute_artist_stats`: single pass over the normalized events. -/
def compute_artist_stats (music : List Event) : Stats :=
  music.foldl statsStep emptyStats

/-- Round-half-to-even on an exact rational, Python's `round` tie rule. -/
def roundHalfEven (q : ℚ) : Int :=
  let f := ⌊q⌋
  if q - f < 1 / 2 then f
  else if (1 : ℚ) / 2 < q - f then f + 1
  else if Even f then f else f + 1

/-- Python `round(q, d)` over exact rationals. -/
def pyRound (q : ℚ) (d : Nat) : ℚ := (roundHalfEven (q * 10 ^ d) : ℚ) / 10 ^ d

/-- Python `round(x, d)` over exact reals (used for the displayed z-score). -/
noncomputable def pyRoundR (x : ℝ) (d : Nat) : ℝ :=
  let y := x * 10 ^ d
  let f := ⌊y⌋
  let v : Int :=
    if y - f < 1 / 2 then f
    else if (1 : ℝ) / 2 < y - f then f + 1
    else if Even f then f else f + 1
  (v : ℝ) / 10 ^ d

/-- Mean of a series' values over the shared month axis:
`mu = sum(vals) / len(vals)` with `vals = [counter[m] for m in all_months]`. -/
def muQ (counter : Counter) (all_months : List MonthKey) : ℚ :=
  ((all_months.map fun m => ((alistGetD counter m 0 : ℕ) : ℚ)).sum) / all_months.length

/-- Population variance of the series over the axis:
`sum((v - mu)**2 ...) / len(vals) if len(vals) > 1 else 0.0`. -/
def varQ (counter : Counter) (all_months : List MonthKey) : ℚ :=
  if 1 < all_months.length then
    ((all_months.map fun m =>
        (((alistGetD counter m 0 : ℕ) : ℚ) - muQ counter all_months) ^ 2).sum)
      / all_months.length
  else 0

/-- The z-score of one axis month:
`0.0 if sd == 0 else (counter[m] - mu) / sd` with `sd = math.sqrt(var)`. -/
noncomputable def zscoreAt (counter : Counter) (all_months : List MonthKey)
    (m : MonthKey) : ℝ :=
  let sd := Real.sqrt (varQ counter all_months)
  if sd = 0 then 0
  else (((alistGetD counter m 0 : ℕ) : ℝ) - ((muQ counter all_months : ℚ) : ℝ)) / sd

/-- `zscore_series(counter, all_months)`: per axis month, the pair
(count, z-score); `{}` when the axis is empty (`if not vals`). -/
noncomputable def zscore_series (counter : Counter) (all_months : List MonthKey) :
    List (MonthKey × Nat × ℝ) :=
  if all_months = [] then []
  else all_months.map fun m =>
    (m, alistGetD counter m 0, zscoreAt counter all_months m)

/-- `SPIKE_Z = 2.0`. -/
noncomputable def SPIKE_Z : ℝ := 2.0

/-- `SPIKE_MIN_PLAYS = 60`. -/
def SPIKE_MIN_PLAYS : Nat := 60

/-- `DROP_PEAK_SHARE = 0.40`. -/
def DROP_PEAK_SHARE : ℚ := 0.40

/-- `DROP_RECENT_SILENCE_M = 24`. -/
def DROP_RECENT_SILENCE_M : Int := 24

/-- `DROP_PEAK_MIN_PLAYS = 20`. -/
def DROP_PEAK_MIN_PLAYS : Nat := 20

/-- `GRIP_MIN_HOURS = 3.0`. -/
def GRIP_MIN_HOURS : ℚ := 3.0

/-- `GRIP_DORMANT_YEARS = 2`. -/
def GRIP_DORMANT_YEARS : ℚ := 2

/-- `ALBUM_DOMINANCE = 0.80`. -/
def ALBUM_DOMINANCE : ℚ := 0.80

/-- `ALBUM_MIN_MONTH_PLAYS = 20`. -/
def ALBUM_MIN_MONTH_PLAYS : Nat := 20

/-- `ALBUM_CONCENTRATION = 0.70`. -/
def ALBUM_CONCENTRATION : ℚ := 0.70

/-- Strict lexicographic order on month keys; this is exactly the order of
the `'%Y-%m'` strings the code sorts by. -/
def mkLt (a b : MonthKey) : Prop := a.1 < b.1 ∨ (a.1 = b.1 ∧ a.2 < b.2)

/-- Non-strict month order. -/
def mkLe (a b : MonthKey) : Prop := mkLt a b ∨ a = b

instance : DecidableRel mkLt := fun a b => by unfold mkLt; infer_instance

instance : DecidableRel mkLe := fun a b => by unfold mkLe; infer_instance

/-- An artist spike row `(month, artist, plays, round(z, 2))`. -/
abbrev SpikeA := MonthKey × String × Nat × ℝ

/-- An album spike row `(month, artist, album, plays, round(z, 2))`. -/
abbrev SpikeAl := MonthKey × String × String × Nat × ℝ

/-- Sort order of artist spike rows: `key=lambda x: (x[0], -x[2])` —
month ascending, then plays descending. -/
def spikeALe (x y : SpikeA) : Prop := mkLt x.1 y.1 ∨ (x.1 = y.1 ∧ y.2.2.1 ≤ x.2.2.1)

/-- Sort order of album spike rows: `key=lambda x: (x[0], -x[3])`. -/
def spikeAlLe (x y : SpikeAl) : Prop :=
  mkLt x.1 y.1 ∨ (x.1 = y.1 ∧ y.2.2.2.1 ≤ x.2.2.2.1)

instance : DecidableRel spikeALe := fun x y => by unfold spikeALe; infer_instance

instance : DecidableRel spikeAlLe := fun x y => by unfold spikeAlLe; infer_instance

/-- The shared month axis:
`sorted({month for counts in artist_month_counts.values() for month in counts})`. -/
def allMonths (artist_month_counts : List (String × Counter)) : List MonthKey :=
  List.insertionSort mkLe
    ((artist_month_counts.flatMap fun p => p.2.map Prod.fst).dedup)

/-- `analyze_spikes`: z-score spike detection for artists and albums, with
result sorting. -/
noncomputable def analyze_spikes (artist_month_counts : List (String × Counter))
    (album_month_counts : List ((String × String) × Counter)) :
    List SpikeA × List SpikeAl :=
  let all_months := allMonths artist_month_counts
  let spikes_artist := artist_month_counts.flatMap fun p =>
    (zscore_series p.2 all_months).filterMap fun q =>
      if SPIKE_MIN_PLAYS ≤ q.2.1 ∧ SPIKE_Z ≤ q.2.2 then
        some (q.1, p.1, q.2.1, pyRoundR q.2.2 2)
      else none
  let spikes_album := album_month_counts.flatMap fun p =>
    (zscore_series p.2 all_months).filterMap fun q =>
      if max 5 (SPIKE_MIN_PLAYS / 2) ≤ q.2.1 ∧ SPIKE_Z ≤ q.2.2 then
        some (q.1, p.1.1, p.1.2, q.2.1, pyRoundR q.2.2 2)
      else none
  (List.insertionSort spikeALe spikes_artist,
   List.insertionSort spikeAlLe spikes_album)

/-- `months_since(dt)`: whole-calendar-month difference
`(now.year - dt.year) * 12 + (now.month - dt.month)`.  In the source, `now`
is read from the ambient clock (`datetime.now(timezone.utc)`) inside the
function; the clock's value is the explicit `now` argument here. -/
def months_since (now dt : Int) : Int :=
  (tsYear now - tsYear dt) * 12 + (tsMonth now - tsMonth dt)

/-- `max(counter.items(), key=lambda kv: kv[1])`: the first item of maximal
count in iteration order (Python `max` keeps the earlier of equals).  The
default for the empty list is never reached: callers guard on a nonzero
lifetime sum. -/
def maxBySnd (l : Counter) : MonthKey × Nat :=
  match l with
  | [] => ((0, 0), 0)
  | x :: t => t.foldl (fun acc y => if acc.2 < y.2 then y else acc) x

/-- `qualifies_dropoff(counter, last_play_dt)`: returns
`(peak_month, peak_plays, lifetime)` when the entity qualifies, else `None`.
`now` is the value the ambient clock read inside `months_since` returns. -/
def qualifies_dropoff (counter : Counter) (last_play_dt : Option Int) (now : Int) :
    Option (MonthKey × Nat × Nat) :=
  let lifetime := csum counter
  if lifetime = 0 then none
  else
    let peak := maxBySnd counter
    if peak.2 < DROP_PEAK_MIN_PLAYS then none
    else if (peak.2 : ℚ) < DROP_PEAK_SHARE * (lifetime : ℚ) then none
    else
      match last_play_dt with
      | some dt =>
          if DROP_RECENT_SILENCE_M ≤ months_since now dt then
            some (peak.1, peak.2, lifetime)
          else none
      | none => none

/-- An artist drop-off row `(artist, peak_month, peak, lifetime, share)`. -/
abbrev DropA := String × MonthKey × Nat × Nat × ℚ

/-- An album drop-off row `(artist, album, peak_month, peak, lifetime, share)`. -/
abbrev DropAl := String × String × MonthKey × Nat × Nat × ℚ

/-- Sort order of artist drop-off rows: `key=lambda x: (x[1], -x[4])`. -/
def dropALe (x y : DropA) : Prop :=
  mkLt x.2.1 y.2.1 ∨ (x.2.1 = y.2.1 ∧ y.2.2.2.2 ≤ x.2.2.2.2)

/-- Sort order of album drop-off rows: `key=lambda x: (x[2], -x[5])`. -/
def dropAlLe (x y : DropAl) : Prop :=
  mkLt x.2.2.1 y.2.2.1 ∨ (x.2.2.1 = y.2.2.1 ∧ y.2.2.2.2.2 ≤ x.2.2.2.2.2)

instance : DecidableRel dropALe := fun x y => by unfold dropALe; infer_instance

instance : DecidableRel dropAlLe := fun x y => by unfold dropAlLe; infer_instance

/-- `analyze_dropoffs`: drop-off detection for artists and albums. -/
def analyze_dropoffs (artist_month_counts : List (String × Counter))
    (album_month_counts : List ((String × String) × Counter))
    (artist_last_play : List (String × Int))
    (album_last_play : List ((String × String) × Int)) (now : Int) :
    List DropA × List DropAl :=
  let drop_artists := artist_month_counts.filterMap fun p =>
    match qualifies_dropoff p.2 (alistLookup artist_last_play p.1) now with
    | some r => some (p.1, r.1, r.2.1, r.2.2, pyRound ((r.2.1 : ℚ) / (r.2.2 : ℚ)) 2)
    | none => none
  let drop_albums := album_month_counts.filterMap fun p =>
    match qualifies_dropoff p.2 (alistLookup album_last_play p.1) now with
    | some r =>
        some (p.1.1, p.1.2, r.1, r.2.1, r.2.2, pyRound ((r.2.1 : ℚ) / (r.2.2 : ℚ)) 2)
    | none => none
  (List.insertionSort dropALe drop_artists, List.insertionSort dropAlLe drop_albums)

/-- A dormant-artist row `(artist, hours, dormant_years, last_play_date)`;
`last_dt.date().isoformat()` is modelled by the (year, month, day) triple it
formats. -/
abbrev GripRow := String × ℚ × ℚ × (Int × Int × Int)

/-- Sort order of dormant rows: `key=lambda x: (-x[2], -x[1], x[0])` —
dormant-years descending, hours descending, artist name ascending. -/
def gripLe (x y : GripRow) : Prop :=
  y.2.2.1 < x.2.2.1 ∨
    (x.2.2.1 = y.2.2.1 ∧
      (y.2.1 < x.2.1 ∨ (x.2.1 = y.2.1 ∧ x.1 ≤ y.1)))

instance : DecidableRel gripLe := fun x y => by unfold gripLe; infer_instance

/-- `analyze_dormant_artists(artist_total_ms, artist_last_play)`: artists
with ≥ `GRIP_MIN_HOURS` lifetime hours and ≥ `GRIP_DORMANT_YEARS` years of
silence.  `now` is the value of the ambient `datetime.now(timezone.utc)`
read; a `datetime` is always truthy, so the `else 100.0` branch of
`dormant_years` is dead and the formula branch is embedded directly. -/
def analyze_dormant_artists (artist_total_ms : List (String × Int))
    (artist_last_play : List (String × Int)) (now : Int) : List GripRow :=
  let raw := artist_total_ms.filterMap fun p =>
    let last_dt := alistGetD artist_last_play p.1 zeroDtSec
    let hoursQ : ℚ := (p.2 : ℚ) / 1000 / 60 / 60
    let dormant_years : ℚ := (((now - last_dt).fdiv 86400 : Int) : ℚ) / 365.25
    if GRIP_MIN_HOURS ≤ hoursQ ∧ GRIP_DORMANT_YEARS ≤ dormant_years then
      some (p.1, pyRound hoursQ 2, pyRound dormant_years 1,
        civilFromDays (tsDays last_dt))
    else none
  List.insertionSort gripLe raw

/-- The CLI's inline accumulation of `artist_total_ms`: unlike the analysis
module (which accumulates empty-artist events under the `<unknown>` key),
the CLI guards with `if m["artist"]:` and skips empty-artist events. -/
def cliArtistTotalMs (music : List Event) : List (String × Int) :=
  music.foldl
    (fun acc e => if e.artist ≠ "" then alistSet acc e.artist (alistGetD acc e.artist 0 + e.ms) else acc)
    []

/-- The CLI's inline dormancy computation: the same grip loop as the
analysis module, fed with the CLI's own `artist_total_ms` (empty artists
skipped) and its `artist_last_play` map (whose inline accumulation is
line-for-line the one in `compute_artist_stats`). -/
def cliDormant (music : List Event) (now : Int) : List GripRow :=
  analyze_dormant_artists (cliArtistTotalMs music)
    (compute_artist_stats music).artist_last_play now

/-- The inner `while times[j] - times[i] > timedelta(days=60)` pointer
advance of the obsession two-pointer scan, for a general window width `W`
(in seconds).  The loop can run at most `j - i` times (it stops no later
than `i = j` since the window width is nonnegative), which is the fuel. -/
def advance (t : Nat → Int) (W : Int) (j : Nat) : Nat → Nat → Nat
  | 0, i => i
  | fuel + 1, i => if W < t j - t i then advance t W j fuel (i + 1) else i

/-- The state `(i, best)` of the two-pointer scan after processing the first
`j` timestamps. -/
def twoPtrState (t : Nat → Int) (W : Int) : Nat → Nat × Nat
  | 0 => (0, 0)
  | j + 1 =>
      let s := twoPtrState t W j
      let i := advance t W j (j - s.1) s.1
      (i, max s.2 (j - i + 1))

/-- The maximum number of timestamps of the (sorted) list `times` contained
in a contiguous window of width `W` seconds, as computed by the two-pointer
scan of the obsession detector (stage 2); there `W = 60 * 86400`. -/
def maxWindow (times : List Int) (W : Int) : Nat :=
  (twoPtrState (fun k => times.getD k 0) W times.length).2

/-- `timedelta(days=60)` in seconds. -/
def SIXTY_DAYS : Int := 60 * 86400

/-- `album_datetimes`: all play timestamps per (artist, album) pair, in
event order. -/
def album_datetimes (music : List Event) : List ((String × String) × List Int) :=
  music.foldl
    (fun acc e =>
      alistSet acc (eKey e, alKey e) (alistGetD acc (eKey e, alKey e) [] ++ [e.ts]))
    []

/-- The dominant-album scan for artist `a` in month `mk`: runs over all
entries of `album_month_counts`, skipping other artists, and keeps the first
album whose count in `mk` strictly exceeds the best so far (starting from
`(None, 0)`). -/
def dominantScan (album_month_counts : List ((String × String) × Counter))
    (a : String) (mk : MonthKey) : Option String × Nat :=
  album_month_counts.foldl
    (fun acc p =>
      if p.1.1 = a then
        if acc.2 < alistGetD p.2 mk 0 then (some p.1.2, alistGetD p.2 mk 0) else acc
      else acc)
    (none, 0)

/-- An obsession row
`(month, artist, album, dominant_plays, artist_month_total, life, round(best/life, 2))`. -/
abbrev ObsRow := MonthKey × String × String × Nat × Nat × Nat × ℚ

/-- Sort order used before deduplication: `key=lambda x: x[0]` (month only). -/
def obsLe (x y : ObsRow) : Prop := mkLe x.1 y.1

instance : DecidableRel obsLe := fun x y => by unfold obsLe; infer_instance

/-- The `seen`-set deduplication loop: keeps the first row (in sorted order)
for each (artist, album) pair. -/
def obsDedup : List ObsRow → List (String × String) → List ObsRow
  | [], _ => []
  | r :: t, seen =>
      if (r.2.1, r.2.2.1) ∈ seen then obsDedup t seen
      else r :: obsDedup t ((r.2.1, r.2.2.1) :: seen)

/-- `analyze_one_album_obsessions(music, artist_month_total_counts,
album_month_counts)`: months where one album dominated an artist's listening
and that album's lifetime plays are temporally concentrated. -/
def analyze_one_album_obsessions (music : List Event)
    (artist_month_total_counts : List (String × Counter))
    (album_month_counts : List ((String × String) × Counter)) : List ObsRow :=
  let adts := album_datetimes music
  let one_album := artist_month_total_counts.flatMap fun p =>
    p.2.flatMap fun q =>
      if q.2 < ALBUM_MIN_MONTH_PLAYS then []
      else
        match dominantScan album_month_counts p.1 q.1 with
        | (some al, dom) =>
            if al ≠ "" ∧ ALBUM_DOMINANCE ≤ (dom : ℚ) / (q.2 : ℚ) then
              let times := List.insertionSort (fun x y => x ≤ y)
                (alistGetD adts (p.1, al) [])
              let best := maxWindow times SIXTY_DAYS
              let life := csum (alistGetD album_month_counts (p.1, al) [])
              if 0 < life ∧ ALBUM_CONCENTRATION ≤ (best : ℚ) / (life : ℚ) then
                [(q.1, p.1, al, dom, q.2, life, pyRound ((best : ℚ) / (life : ℚ)) 2)]
              else []
            else []
        | (none, _) => []
  obsDedup (List.insertionSort obsLe one_album) []

/-! ### Association-list lemmas -/

/-- An association list with pairwise-distinct keys (Python dicts always
satisfy this). -/
def NoDupKeys {α β : Type} (l : List (α × β)) : Prop := (l.map Prod.fst).Nodup

theorem alistGetD_set_self {α β : Type} [DecidableEq α] (l : List (α × β))
    (k : α) (v : β) (d : β) : alistGetD (alistSet l k v) k d = v := by
  induction l with
  | nil => simp [alistSet, alistGetD]
  | cons h t ih =>
      obtain ⟨k', v'⟩ := h
      by_cases hk : k' = k
      · simp [alistSet, hk, alistGetD]
      · simp [alistSet, hk, alistGetD, ih]

theorem alistGetD_set_ne {α β : Type} [DecidableEq α] (l : List (α × β))
    {k k' : α} (v : β) (d : β) (h : k' ≠ k) :
    alistGetD (alistSet l k v) k' d = alistGetD l k' d := by
  induction l with
  | nil => simp [alistSet, alistGetD, Ne.symm h]
  | cons p t ih =>
      obtain ⟨k0, v0⟩ := p
      by_cases hk : k0 = k
      · subst hk
        simp [alistSet, alistGetD, Ne.symm h]
      · by_cases hk' : k0 = k'
        · subst hk'
          simp [alistSet, if_neg hk, alistGetD]
        · simp [alistSet, if_neg hk, alistGetD, hk', ih]

theorem mem_alistKeys_set {α β : Type} [DecidableEq α] (l : List (α × β))
    (k : α) (v : β) (x : α) :
    x ∈ alistKeys (alistSet l k v) ↔ x ∈ alistKeys l ∨ x = k := by
  induction l with
  | nil => simp [alistSet, alistKeys]
  | cons p t ih =>
      obtain ⟨k0, v0⟩ := p
      by_cases hk : k0 = k
      · subst hk
        simp [alistSet, alistKeys]
        tauto
      · simp only [alistSet, if_neg hk, alistKeys, List.map_cons, List.mem_cons] at ih ⊢
        rw [ih]
        tauto

theorem NoDupKeys.set {α β : Type} [DecidableEq α] {l : List (α × β)}
    (h : NoDupKeys l) (k : α) (v : β) : NoDupKeys (alistSet l k v) := by
  induction l with
  | nil => simp [alistSet, NoDupKeys]
  | cons p t ih =>
      obtain ⟨k0, v0⟩ := p
      simp only [NoDupKeys, List.map_cons, List.nodup_cons] at h
      by_cases hk : k0 = k
      · subst hk
        simp only [NoDupKeys]
        simp [alistSet, List.nodup_cons]
        exact ⟨fun x hx => h.1 (List.mem_map_of_mem Prod.fst hx), h.2⟩
      · simp only [alistSet, if_neg hk, NoDupKeys, List.map_cons, List.nodup_cons]
        refine ⟨?_, ih h.2⟩
        intro hmem
        rcases (mem_alistKeys_set t k v k0).1 hmem with h' | h'
        · exact h.1 h'
        · exact hk h'

theorem mem_alistSet {α β : Type} [DecidableEq α] {l : List (α × β)}
    {k : α} {v : β} {p : α × β} (h : p ∈ alistSet l k v) : p ∈ l ∨ p = (k, v) := by
  induction l with
  | nil => simpa [alistSet] using h
  | cons q t ih =>
      obtain ⟨k0, v0⟩ := q
      by_cases hk : k0 = k
      · simp only [alistSet, if_pos hk, List.mem_cons] at h
        rcases h with h | h
        · exact Or.inr h
        · exact Or.inl (List.mem_cons_of_mem _ h)
      · simp only [alistSet, if_neg hk, List.mem_cons] at h
        rcases h with h | h
        · exact Or.inl (by simp [h])
        · rcases ih h with h' | h'
          · exact Or.inl (List.mem_cons_of_mem _ h')
          · exact Or.inr h'

theorem alistGetD_cases {α β : Type} [DecidableEq α] (l : List (α × β))
    (k : α) (d : β) : alistGetD l k d = d ∨ (k, alistGetD l k d) ∈ l := by
  induction l with
  | nil => simp [alistGetD]
  | cons p t ih =>
      obtain ⟨k0, v0⟩ := p
      by_cases hk : k0 = k
      · subst hk
        simp [alistGetD]
      · simp only [alistGetD, if_neg hk]
        rcases ih with h | h
        · exact Or.inl h
        · exact Or.inr (List.mem_cons_of_mem _ h)

theorem alistGetD_of_mem {α β : Type} [DecidableEq α] {l : List (α × β)}
    {k : α} {v : β} (hnd : NoDupKeys l) (hm : (k, v) ∈ l) (d : β) :
    alistGetD l k d = v := by
  induction l with
  | nil => simp at hm
  | cons p t ih =>
      obtain ⟨k0, v0⟩ := p
      simp only [NoDupKeys, List.map_cons, List.nodup_cons] at hnd
      rcases List.mem_cons.1 hm with hm' | hm'
      · cases hm'
        simp [alistGetD]
      · have hk0 : k0 ≠ k := by
          intro hh
          subst hh
          exact hnd.1 (List.mem_map_of_mem Prod.fst hm')
        simp only [alistGetD, if_neg hk0]
        exact ih hnd.2 hm'

theorem mem_of_alistGetD_ne {α β : Type} [DecidableEq α] {l : List (α × β)}
    {k : α} {d : β} (h : alistGetD l k d ≠ d) : (k, alistGetD l k d) ∈ l :=
  (alistGetD_cases l k d).resolve_left h

/-! ### Aggregation invariants -/

theorem csum_cbump (c : Counter) (mk : MonthKey) (n : Nat) :
    csum (cbump c mk n) = csum c + n := by
  induction c with
  | nil => simp [cbump, alistSet, alistGetD, csum]
  | cons p t ih =>
      obtain ⟨k0, v0⟩ := p
      by_cases hk : k0 = mk
      · subst hk
        simp [cbump, alistSet, alistGetD, csum]
        omega
      · have : cbump ((k0, v0) :: t) mk n = (k0, v0) :: cbump t mk n := by
          simp [cbump, alistSet, alistGetD, hk]
        rw [this]
        simp only [csum, List.map_cons, List.sum_cons] at ih ⊢
        omega

/-- Key-distinctness of all maps (and all inner counters) of the aggregates. -/
def StatsWF (s : Stats) : Prop :=
  NoDupKeys s.artist_month_counts ∧ NoDupKeys s.album_month_counts ∧
  NoDupKeys s.artist_month_total_counts ∧
  (∀ p ∈ s.artist_month_counts, NoDupKeys p.2) ∧
  (∀ p ∈ s.album_month_counts, NoDupKeys p.2) ∧
  (∀ p ∈ s.artist_month_total_counts, NoDupKeys p.2)

theorem noDupKeys_getD_of_inner {α : Type} [DecidableEq α]
    {m : List (α × Counter)} (hinner : ∀ p ∈ m, NoDupKeys p.2) (k : α) :
    NoDupKeys (alistGetD m k []) := by
  rcases alistGetD_cases m k [] with h | h
  · rw [h]; exact List.nodup_nil
  · exact hinner _ h

theorem statsWF_step {s : Stats} (h : StatsWF s) (e : Event) :
    StatsWF (statsStep s e) := by
  obtain ⟨h1, h2, h3, h4, h5, h6⟩ := h
  refine ⟨h1.set _ _, h2.set _ _, h3.set _ _, ?_, ?_, ?_⟩
  · intro p hp
    rcases mem_alistSet hp with hp' | hp'
    · exact h4 _ hp'
    · subst hp'
      exact (noDupKeys_getD_of_inner h4 _).set _ _
  · intro p hp
    rcases mem_alistSet hp with hp' | hp'
    · exact h5 _ hp'
    · subst hp'
      exact (noDupKeys_getD_of_inner h5 _).set _ _
  · intro p hp
    rcases mem_alistSet hp with hp' | hp'
    · exact h6 _ hp'
    · subst hp'
      exact (noDupKeys_getD_of_inner h6 _).set _ _

theorem statsWF_fold (music : List Event) (s : Stats) (h : StatsWF s) :
    StatsWF (music.foldl statsStep s) := by
  induction music generalizing s with
  | nil => exact h
  | cons e t ih => exact ih _ (statsWF_step h e)

theorem statsWF_compute (music : List Event) : StatsWF (compute_artist_stats music) :=
  statsWF_fold music emptyStats
    ⟨List.nodup_nil, List.nodup_nil, List.nodup_nil, by simp [emptyStats],
     by simp [emptyStats], by simp [emptyStats]⟩

/-- Every month key of an (artist, album) series is a month key of the
artist's own series: albums never contribute months the artist map lacks. -/
def MonthsSub (s : Stats) : Prop :=
  ∀ a al mk, mk ∈ alistKeys (alistGetD s.album_month_counts (a, al) []) →
    mk ∈ alistKeys (alistGetD s.artist_month_counts a [])

theorem monthsSub_step {s : Stats} (h : MonthsSub s) (e : Event) :
    MonthsSub (statsStep s e) := by
  intro a al mk hmem
  by_cases hpair : (a, al) = (eKey e, alKey e)
  · have ha : a = eKey e := congrArg Prod.fst hpair
    have hset :
        alistGetD (statsStep s e).album_month_counts (a, al) []
          = cbump (alistGetD s.album_month_counts (eKey e, alKey e) []) (month_key e.ts) 1 := by
      rw [hpair]
      exact alistGetD_set_self ..
    rw [hset] at hmem
    have hart :
        alistGetD (statsStep s e).artist_month_counts a []
          = cbump (alistGetD s.artist_month_counts a []) (month_key e.ts) 1 := by
      rw [ha]
      exact alistGetD_set_self ..
    rw [hart]
    rcases (mem_alistKeys_set _ _ _ _).1 hmem with h' | h'
    · exact (mem_alistKeys_set _ _ _ _).2
        (Or.inl (h a al mk (by rw [hpair]; exact h')))
    · exact (mem_alistKeys_set _ _ _ _).2 (Or.inr h')
  · have hset :
        alistGetD (statsStep s e).album_month_counts (a, al) []
          = alistGetD s.album_month_counts (a, al) [] :=
      alistGetD_set_ne _ _ _ hpair
    rw [hset] at hmem
    have h' := h a al mk hmem
    by_cases ha : a = eKey e
    · have hart :
          alistGetD (statsStep s e).artist_month_counts a []
            = cbump (alistGetD s.artist_month_counts a []) (month_key e.ts) 1 := by
        rw [ha]
        exact alistGetD_set_self ..
      rw [hart]
      exact (mem_alistKeys_set _ _ _ _).2 (Or.inl h')
    · have hart :
          alistGetD (statsStep s e).artist_month_counts a []
            = alistGetD s.artist_month_counts a [] :=
        alistGetD_set_ne _ _ _ ha
      rw [hart]
      exact h'

theorem monthsSub_compute (music : List Event) :
    MonthsSub (compute_artist_stats music) := by
  have : ∀ s : Stats, MonthsSub s → MonthsSub (music.foldl statsStep s) := by
    induction music with
    | nil => exact fun s h => h
    | cons e t ih => exact fun s h => ih _ (monthsSub_step h e)
  exact this emptyStats (by intro a al mk h; simp [emptyStats, alistGetD, alistKeys] at h)

/-! ### Component extraction of the aggregation fold -/

theorem fold_artist_total_ms (music : List Event) (s : Stats) (a : String) :
    alistGetD (music.foldl statsStep s).artist_total_ms a 0
      = (music.filter fun e => eKey e = a).foldl (fun acc e => acc + e.ms)
          (alistGetD s.artist_total_ms a 0) := by
  induction music generalizing s with
  | nil => rfl
  | cons e t ih =>
      by_cases ha : eKey e = a
      · rw [List.foldl_cons, ih, List.filter_cons_of_pos (by simpa using ha)]
        rw [List.foldl_cons]
        have : alistGetD (statsStep s e).artist_total_ms a 0
            = alistGetD s.artist_total_ms a 0 + e.ms := by
          rw [show (statsStep s e).artist_total_ms
              = alistSet s.artist_total_ms (eKey e)
                  (alistGetD s.artist_total_ms (eKey e) 0 + e.ms) from rfl, ha]
          exact alistGetD_set_self ..
        rw [this]
      · rw [List.foldl_cons, ih, List.filter_cons_of_neg (by simpa using ha)]
        have : alistGetD (statsStep s e).artist_total_ms a 0
            = alistGetD s.artist_total_ms a 0 :=
          alistGetD_set_ne _ _ _ (fun hh => ha hh.symm)
        rw [this]

theorem fold_artist_last_play (music : List Event) (s : Stats) (a : String) :
    alistGetD (music.foldl statsStep s).artist_last_play a zeroDtSec
      = (music.filter fun e => eKey e = a).foldl (fun acc e => pyMax acc e.ts)
          (alistGetD s.artist_last_play a zeroDtSec) := by
  induction music generalizing s with
  | nil => rfl
  | cons e t ih =>
      by_cases ha : eKey e = a
      · rw [List.foldl_cons, ih, List.filter_cons_of_pos (by simpa using ha),
          List.foldl_cons]
        have : alistGetD (statsStep s e).artist_last_play a zeroDtSec
            = pyMax (alistGetD s.artist_last_play a zeroDtSec) e.ts := by
          rw [show (statsStep s e).artist_last_play
              = alistSet s.artist_last_play (eKey e)
                  (pyMax (alistGetD s.artist_last_play (eKey e) zeroDtSec) e.ts) from rfl,
            ha]
          exact alistGetD_set_self ..
        rw [this]
      · rw [List.foldl_cons, ih, List.filter_cons_of_neg (by simpa using ha)]
        have : alistGetD (statsStep s e).artist_last_play a zeroDtSec
            = alistGetD s.artist_last_play a zeroDtSec :=
          alistGetD_set_ne _ _ _ (fun hh => ha hh.symm)
        rw [this]

theorem fold_album_last_play (music : List Event) (s : Stats) (k : String × String) :
    alistGetD (music.foldl statsStep s).album_last_play k zeroDtSec
      = (music.filter fun e => (eKey e, alKey e) = k).foldl
          (fun acc e => pyMax acc e.ts)
          (alistGetD s.album_last_play k zeroDtSec) := by
  induction music generalizing s with
  | nil => rfl
  | cons e t ih =>
      by_cases ha : (eKey e, alKey e) = k
      · rw [List.foldl_cons, ih, List.filter_cons_of_pos (by simpa using ha),
          List.foldl_cons]
        have : alistGetD (statsStep s e).album_last_play k zeroDtSec
            = pyMax (alistGetD s.album_last_play k zeroDtSec) e.ts := by
          rw [show (statsStep s e).album_last_play
              = alistSet s.album_last_play (eKey e, alKey e)
                  (pyMax (alistGetD s.album_last_play (eKey e, alKey e) zeroDtSec) e.ts)
                from rfl, ha]
          exact alistGetD_set_self ..
        rw [this]
      · rw [List.foldl_cons, ih, List.filter_cons_of_neg (by simpa using ha)]
        have : alistGetD (statsStep s e).album_last_play k zeroDtSec
            = alistGetD s.album_last_play k zeroDtSec :=
          alistGetD_set_ne _ _ _ (fun hh => ha hh.symm)
        rw [this]

theorem fold_artist_first_play (music : List Event) (s : Stats) (a : String) :
    alistGetD (music.foldl statsStep s).artist_first_play a maxDtSec
      = (music.filter fun e => eKey e = a).foldl (fun acc e => pyMin acc e.ts)
          (alistGetD s.artist_first_play a maxDtSec) := by
  induction music generalizing s with
  | nil => rfl
  | cons e t ih =>
      by_cases ha : eKey e = a
      · rw [List.foldl_cons, ih, List.filter_cons_of_pos (by simpa using ha),
          List.foldl_cons]
        have : alistGetD (statsStep s e).artist_first_play a maxDtSec
            = pyMin (alistGetD s.artist_first_play a maxDtSec) e.ts := by
          rw [show (statsStep s e).artist_first_play
              = alistSet s.artist_first_play (eKey e)
                  (pyMin (alistGetD s.artist_first_play (eKey e) maxDtSec) e.ts) from rfl,
            ha]
          exact alistGetD_set_self ..
        rw [this]
      · rw [List.foldl_cons, ih, List.filter_cons_of_neg (by simpa using ha)]
        have : alistGetD (statsStep s e).artist_first_play a maxDtSec
            = alistGetD s.artist_first_play a maxDtSec :=
          alistGetD_set_ne _ _ _ (fun hh => ha hh.symm)
        rw [this]

theorem fold_amc_csum (music : List Event) (s : Stats) (a : String) :
    csum (alistGetD (music.foldl statsStep s).artist_month_counts a [])
      = csum (alistGetD s.artist_month_counts a [])
          + (music.filter fun e => eKey e = a).length := by
  induction music generalizing s with
  | nil => simp
  | cons e t ih =>
      rw [List.foldl_cons, ih]
      by_cases ha : eKey e = a
      · rw [List.filter_cons_of_pos (by simpa using ha)]
        have : alistGetD (statsStep s e).artist_month_counts a []
            = cbump (alistGetD s.artist_month_counts a []) (month_key e.ts) 1 := by
          rw [show (statsStep s e).artist_month_counts
              = alistSet s.artist_month_counts (eKey e)
                  (cbump (alistGetD s.artist_month_counts (eKey e) []) (month_key e.ts) 1)
                from rfl, ha]
          exact alistGetD_set_self ..
        rw [this, csum_cbump]
        simp
        omega
      · rw [List.filter_cons_of_neg (by simpa using ha)]
        have : alistGetD (statsStep s e).artist_month_counts a []
            = alistGetD s.artist_month_counts a [] :=
          alistGetD_set_ne _ _ _ (fun hh => ha hh.symm)
        rw [this]

theorem fold_albmc_csum (music : List Event) (s : Stats) (k : String × String) :
    csum (alistGetD (music.foldl statsStep s).album_month_counts k [])
      = csum (alistGetD s.album_month_counts k [])
          + (music.filter fun e => (eKey e, alKey e) = k).length := by
  induction music generalizing s with
  | nil => simp
  | cons e t ih =>
      rw [List.foldl_cons, ih]
      by_cases ha : (eKey e, alKey e) = k
      · rw [List.filter_cons_of_pos (by simpa using ha)]
        have : alistGetD (statsStep s e).album_month_counts k []
            = cbump (alistGetD s.album_month_counts k []) (month_key e.ts) 1 := by
          rw [show (statsStep s e).album_month_counts
              = alistSet s.album_month_counts (eKey e, alKey e)
                  (cbump (alistGetD s.album_month_counts (eKey e, alKey e) [])
                    (month_key e.ts) 1) from rfl, ha]
          exact alistGetD_set_self ..
        rw [this, csum_cbump]
        simp
        omega
      · rw [List.filter_cons_of_neg (by simpa using ha)]
        have : alistGetD (statsStep s e).album_month_counts k []
            = alistGetD s.album_month_counts k [] :=
          alistGetD_set_ne _ _ _ (fun hh => ha hh.symm)
        rw [this]

/-! ### Running max/min facts (C7) -/

theorem pyMax_ge_left (a b : Int) : a ≤ pyMax a b := by
  unfold pyMax; split <;> omega

theorem pyMax_ge_right (a b : Int) : b ≤ pyMax a b := by
  unfold pyMax; split <;> omega

theorem pyMax_cases (a b : Int) : pyMax a b = a ∨ pyMax a b = b := by
  unfold pyMax; split <;> simp

theorem pyMin_le_left (a b : Int) : pyMin a b ≤ a := by
  unfold pyMin; split <;> omega

theorem pyMin_le_right (a b : Int) : pyMin a b ≤ b := by
  unfold pyMin; split <;> omega

theorem pyMin_cases (a b : Int) : pyMin a b = a ∨ pyMin a b = b := by
  unfold pyMin; split <;> simp

theorem foldl_pyMax_ge_seed {α : Type} (f : α → Int) (l : List α) (z : Int) :
    z ≤ l.foldl (fun acc y => pyMax acc (f y)) z := by
  induction l generalizing z with
  | nil => simp
  | cons x t ih => exact le_trans (pyMax_ge_left z (f x)) (ih _)

theorem foldl_pyMax_ge_mem {α : Type} (f : α → Int) (l : List α) (z : Int) :
    ∀ x ∈ l, f x ≤ l.foldl (fun acc y => pyMax acc (f y)) z := by
  induction l generalizing z with
  | nil => simp
  | cons y t ih =>
      intro x hx
      rcases List.mem_cons.1 hx with rfl | hx'
      · exact le_trans (pyMax_ge_right z (f x)) (foldl_pyMax_ge_seed f t _)
      · exact ih _ x hx'

theorem foldl_pyMax_attained {α : Type} (f : α → Int) (l : List α) (z : Int) :
    l.foldl (fun acc y => pyMax acc (f y)) z = z
      ∨ ∃ x ∈ l, l.foldl (fun acc y => pyMax acc (f y)) z = f x := by
  induction l generalizing z with
  | nil => simp
  | cons y t ih =>
      rcases ih (pyMax z (f y)) with h | h
      · rcases pyMax_cases z (f y) with h' | h'
        · exact Or.inl (by simpa [h'] using h)
        · exact Or.inr ⟨y, List.mem_cons_self y t, by simpa [h'] using h⟩
      · obtain ⟨x, hx, hx'⟩ := h
        exact Or.inr ⟨x, List.mem_cons_of_mem _ hx, hx'⟩

theorem foldl_pyMin_le_seed {α : Type} (f : α → Int) (l : List α) (z : Int) :
    l.foldl (fun acc y => pyMin acc (f y)) z ≤ z := by
  induction l generalizing z with
  | nil => simp
  | cons x t ih => exact le_trans (ih _) (pyMin_le_left z (f x))

theorem foldl_pyMin_le_mem {α : Type} (f : α → Int) (l : List α) (z : Int) :
    ∀ x ∈ l, l.foldl (fun acc y => pyMin acc (f y)) z ≤ f x := by
  induction l generalizing z with
  | nil => simp
  | cons y t ih =>
      intro x hx
      rcases List.mem_cons.1 hx with rfl | hx'
      · exact le_trans (foldl_pyMin_le_seed f t _) (pyMin_le_right z (f x))
      · exact ih _ x hx'

theorem foldl_pyMin_attained {α : Type} (f : α → Int) (l : List α) (z : Int) :
    l.foldl (fun acc y => pyMin acc (f y)) z = z
      ∨ ∃ x ∈ l, l.foldl (fun acc y => pyMin acc (f y)) z = f x := by
  induction l generalizing z with
  | nil => simp
  | cons y t ih =>
      rcases ih (pyMin z (f y)) with h | h
      · rcases pyMin_cases z (f y) with h' | h'
        · exact Or.inl (by simpa [h'] using h)
        · exact Or.inr ⟨y, List.mem_cons_self y t, by simpa [h'] using h⟩
      · obtain ⟨x, hx, hx'⟩ := h
        exact Or.inr ⟨x, List.mem_cons_of_mem _ hx, hx'⟩

theorem pyMax_fold_spec {α : Type} (f : α → Int) (l : List α) (z : Int)
    (hne : l ≠ []) (hb : ∀ x ∈ l, z ≤ f x) :
    (∃ x ∈ l, l.foldl (fun acc y => pyMax acc (f y)) z = f x)
      ∧ ∀ x ∈ l, f x ≤ l.foldl (fun acc y => pyMax acc (f y)) z := by
  refine ⟨?_, foldl_pyMax_ge_mem f l z⟩
  rcases foldl_pyMax_attained f l z with h | h
  · obtain ⟨x0, hx0⟩ := List.exists_mem_of_ne_nil l hne
    refine ⟨x0, hx0, ?_⟩
    have h1 := foldl_pyMax_ge_mem f l z x0 hx0
    have h2 := hb x0 hx0
    omega
  · exact h

theorem pyMin_fold_spec {α : Type} (f : α → Int) (l : List α) (z : Int)
    (hne : l ≠ []) (hb : ∀ x ∈ l, f x ≤ z) :
    (∃ x ∈ l, l.foldl (fun acc y => pyMin acc (f y)) z = f x)
      ∧ ∀ x ∈ l, l.foldl (fun acc y => pyMin acc (f y)) z ≤ f x := by
  refine ⟨?_, foldl_pyMin_le_mem f l z⟩
  rcases foldl_pyMin_attained f l z with h | h
  · obtain ⟨x0, hx0⟩ := List.exists_mem_of_ne_nil l hne
    refine ⟨x0, hx0, ?_⟩
    have h1 := foldl_pyMin_le_mem f l z x0 hx0
    have h2 := hb x0 hx0
    omega
  · exact h

/-- C7: after the single aggregation pass, each artist's `first_play` /
`last_play` equals the min / max of that artist's event timestamps, and each
(artist, album) pair's `last_play` the max of the pair's event timestamps;
the `datetime.min` / `datetime.max` initialization sentinels never win a
min/max comparison against real events (whose timestamps lie in the valid
`datetime` range). -/
theorem C7_first_last_play (music : List Event)
    (hb : ∀ e ∈ music, zeroDtSec ≤ e.ts ∧ e.ts ≤ maxDtSec) :
    (∀ a : String, (music.filter fun e => eKey e = a) ≠ [] →
      ((∃ e ∈ music.filter fun e => eKey e = a,
          alistGetD (compute_artist_stats music).artist_last_play a zeroDtSec = e.ts)
        ∧ ∀ e ∈ music.filter fun e => eKey e = a,
            e.ts ≤ alistGetD (compute_artist_stats music).artist_last_play a zeroDtSec)
      ∧ ((∃ e ∈ music.filter fun e => eKey e = a,
          alistGetD (compute_artist_stats music).artist_first_play a maxDtSec = e.ts)
        ∧ ∀ e ∈ music.filter fun e => eKey e = a,
            alistGetD (compute_artist_stats music).artist_first_play a maxDtSec ≤ e.ts))
    ∧ ∀ k : String × String, (music.filter fun e => (eKey e, alKey e) = k) ≠ [] →
        (∃ e ∈ music.filter fun e => (eKey e, alKey e) = k,
            alistGetD (compute_artist_stats music).album_last_play k zeroDtSec = e.ts)
          ∧ ∀ e ∈ music.filter fun e => (eKey e, alKey e) = k,
              e.ts ≤ alistGetD (compute_artist_stats music).album_last_play k zeroDtSec := by
  constructor
  · intro a hne
    constructor
    · rw [show compute_artist_stats music = music.foldl statsStep emptyStats from rfl,
        fold_artist_last_play music emptyStats a]
      exact pyMax_fold_spec Event.ts _ zeroDtSec hne
        (fun e he => (hb e (List.mem_of_mem_filter he)).1)
    · rw [show compute_artist_stats music = music.foldl statsStep emptyStats from rfl,
        fold_artist_first_play music emptyStats a]
      exact pyMin_fold_spec Event.ts _ maxDtSec hne
        (fun e he => (hb e (List.mem_of_mem_filter he)).2)
  · intro k hne
    rw [show compute_artist_stats music = music.foldl statsStep emptyStats from rfl,
      fold_album_last_play music emptyStats k]
    exact pyMax_fold_spec Event.ts _ zeroDtSec hne
      (fun e he => (hb e (List.mem_of_mem_filter he)).1)

/-- Concrete two-event input for the C7 witness. -/
def wMusic : List Event := [⟨100, 1, "t", "al", "ar"⟩, ⟨50, 1, "u", "al", "ar"⟩]

/-- Witness for C7 at a concrete two-event history. -/
theorem C7_witness :
    (∀ e ∈ wMusic, zeroDtSec ≤ e.ts ∧ e.ts ≤ maxDtSec) ∧
    ((∀ a : String, (wMusic.filter fun e => eKey e = a) ≠ [] →
      ((∃ e ∈ wMusic.filter fun e => eKey e = a,
          alistGetD (compute_artist_stats wMusic).artist_last_play a zeroDtSec = e.ts)
        ∧ ∀ e ∈ wMusic.filter fun e => eKey e = a,
            e.ts ≤ alistGetD (compute_artist_stats wMusic).artist_last_play a zeroDtSec)
      ∧ ((∃ e ∈ wMusic.filter fun e => eKey e = a,
          alistGetD (compute_artist_stats wMusic).artist_first_play a maxDtSec = e.ts)
        ∧ ∀ e ∈ wMusic.filter fun e => eKey e = a,
            alistGetD (compute_artist_stats wMusic).artist_first_play a maxDtSec ≤ e.ts))
    ∧ ∀ k : String × String, (wMusic.filter fun e => (eKey e, alKey e) = k) ≠ [] →
        (∃ e ∈ wMusic.filter fun e => (eKey e, alKey e) = k,
            alistGetD (compute_artist_stats wMusic).album_last_play k zeroDtSec = e.ts)
          ∧ ∀ e ∈ wMusic.filter fun e => (eKey e, alKey e) = k,
              e.ts ≤ alistGetD (compute_artist_stats wMusic).album_last_play k zeroDtSec) :=
  ⟨by decide, C7_first_last_play wMusic (by decide)⟩

/-- C8: for every entity (artist, or (artist, album) pair), the sum of the
per-month counts of its `MonthlySeries` equals the number of normalized
events attributed to that entity. -/
theorem C8_series_sum_eq_events (music : List Event) :
    (∀ a : String,
      csum (alistGetD (compute_artist_stats music).artist_month_counts a [])
        = (music.filter fun e => eKey e = a).length)
    ∧ ∀ k : String × String,
        csum (alistGetD (compute_artist_stats music).album_month_counts k [])
          = (music.filter fun e => (eKey e, alKey e) = k).length := by
  constructor
  · intro a
    have h := fold_amc_csum music emptyStats a
    rw [show compute_artist_stats music = music.foldl statsStep emptyStats from rfl, h]
    simp [emptyStats, alistGetD, csum]
  · intro k
    have h := fold_albmc_csum music emptyStats k
    rw [show compute_artist_stats music = music.foldl statsStep emptyStats from rfl, h]
    simp [emptyStats, alistGetD, csum]

/-! ### Drop-off qualification (C1) -/

theorem maxBySnd_spec (l : Counter) (hne : l ≠ []) :
    maxBySnd l ∈ l ∧ ∀ p ∈ l, p.2 ≤ (maxBySnd l).2 := by
  match l, hne with
  | x :: t, _ =>
    suffices h : ∀ (t : List (MonthKey × Nat)) (acc : MonthKey × Nat),
        (t.foldl (fun acc y => if acc.2 < y.2 then y else acc) acc = acc
          ∨ t.foldl (fun acc y => if acc.2 < y.2 then y else acc) acc ∈ t)
        ∧ acc.2 ≤ (t.foldl (fun acc y => if acc.2 < y.2 then y else acc) acc).2
        ∧ ∀ p ∈ t, p.2 ≤ (t.foldl (fun acc y => if acc.2 < y.2 then y else acc) acc).2 by
      obtain ⟨h1, h2, h3⟩ := h t x
      constructor
      · show t.foldl _ x ∈ x :: t
        rcases h1 with h1 | h1
        · rw [h1]; exact List.mem_cons_self x t
        · exact List.mem_cons_of_mem _ h1
      · intro p hp
        rcases List.mem_cons.1 hp with rfl | hp'
        · exact h2
        · exact h3 p hp'
    intro t
    induction t with
    | nil => exact fun acc => ⟨Or.inl rfl, le_refl _, by simp⟩
    | cons y t ih =>
        intro acc
        simp only [List.foldl_cons]
        obtain ⟨ih1, ih2, ih3⟩ := ih (if acc.2 < y.2 then y else acc)
        have hstep : acc.2 ≤ (if acc.2 < y.2 then y else acc).2 := by
          split <;> omega
        have hy : y.2 ≤ (if acc.2 < y.2 then y else acc).2 := by
          split <;> omega
        refine ⟨?_, le_trans hstep ih2, ?_⟩
        · rcases ih1 with h | h
          · rw [h]
            split
            · exact Or.inr (List.mem_cons_self y t)
            · exact Or.inl rfl
          · exact Or.inr (List.mem_cons_of_mem _ h)
        · intro p hp
          rcases List.mem_cons.1 hp with rfl | hp'
          · exact le_trans hy ih2
          · exact ih3 p hp'

theorem maxBySnd_le_csum (l : Counter) : (maxBySnd l).2 ≤ csum l := by
  rcases eq_or_ne l [] with rfl | hne
  · simp [maxBySnd, csum]
  · have hmem := (maxBySnd_spec l hne).1
    exact List.single_le_sum (by simp) _ (List.mem_map_of_mem Prod.snd hmem)

/-- C1: the drop-off detector accepts an entity's series and last-play
timestamp iff all three thresholds hold — peak-month count at least 20, peak
at least 40% of lifetime plays, and at least 24 whole calendar months
between the last play and now (`(now.year - last.year) * 12 +
(now.month - last.month)`); zero-lifetime series never qualify. -/
theorem C1_dropoff_iff (counter : Counter) (last now : Int) :
    ((qualifies_dropoff counter (some last) now).isSome ↔
      (DROP_PEAK_MIN_PLAYS ≤ (maxBySnd counter).2
        ∧ DROP_PEAK_SHARE * (csum counter : ℚ) ≤ ((maxBySnd counter).2 : ℚ)
        ∧ DROP_RECENT_SILENCE_M ≤ months_since now last))
    ∧ (csum counter = 0 → qualifies_dropoff counter (some last) now = none) := by
  constructor
  · by_cases h0 : csum counter = 0
    · have hle := maxBySnd_le_csum counter
      have hpeak : ¬ DROP_PEAK_MIN_PLAYS ≤ (maxBySnd counter).2 := by
        unfold DROP_PEAK_MIN_PLAYS
        omega
      simp [qualifies_dropoff, h0, hpeak]
    · by_cases h1 : (maxBySnd counter).2 < DROP_PEAK_MIN_PLAYS
      · simp [qualifies_dropoff, h0, h1]
      · by_cases h2 : ((maxBySnd counter).2 : ℚ) < DROP_PEAK_SHARE * (csum counter : ℚ)
        · simp [qualifies_dropoff, h0, h1, h2]
        · by_cases h3 : DROP_RECENT_SILENCE_M ≤ months_since now last
          · simp [qualifies_dropoff, h0, h1, h2, h3]
            exact ⟨not_lt.1 h1, not_lt.1 h2⟩
          · simp [qualifies_dropoff, h0, h1, h2, h3]
  · intro h0
    simp [qualifies_dropoff, h0]

/-- C4: on the empty normalized event list the aggregate maps are empty and
every detector — spike, drop-off, dormancy, obsession — returns empty result
lists (total functions in this embedding; nothing is thrown). -/
theorem C4_empty_input (now : Int) :
    compute_artist_stats [] = emptyStats
    ∧ analyze_spikes (compute_artist_stats []).artist_month_counts
        (compute_artist_stats []).album_month_counts = ([], [])
    ∧ analyze_dropoffs (compute_artist_stats []).artist_month_counts
        (compute_artist_stats []).album_month_counts
        (compute_artist_stats []).artist_last_play
        (compute_artist_stats []).album_last_play now = ([], [])
    ∧ analyze_dormant_artists (compute_artist_stats []).artist_total_ms
        (compute_artist_stats []).artist_last_play now = []
    ∧ analyze_one_album_obsessions []
        (compute_artist_stats []).artist_month_total_counts
        (compute_artist_stats []).album_month_counts = [] :=
  ⟨rfl, rfl, rfl, rfl, rfl⟩

/-- C5: the drop-off and dormancy computations read the ambient wall clock
(`datetime.now(timezone.utc)` inside `months_since` and
`analyze_dormant_artists`); "now" is not an injectable parameter in the
source.  With the clock read modelled explicitly, the same aggregates
produce different results at two different clock instants (1970-01-01 vs
1973-01-03), so two runs on identical normalized input need not agree. -/
theorem C5_clock_dependence :
    qualifies_dropoff [((1970, 1), 30)] (some 0) 0 = none
      ∧ qualifies_dropoff [((1970, 1), 30)] (some 0) 94867200
          = some ((1970, 1), 30, 30)
      ∧ analyze_dormant_artists [("a", 21600000)] [("a", 0)] 0 = []
      ∧ analyze_dormant_artists [("a", 21600000)] [("a", 0)] 126230400
          = [("a", 6, 4, (1970, 1, 1))] := by
  have hm0 : months_since 0 0 = 0 := by decide
  have hm1 : months_since 94867200 0 = 36 := by decide
  have hf0 : ((0 : Int) - 0).fdiv 86400 = 0 := by decide
  have hf1 : Int.fdiv 126230400 86400 = 1461 := by decide
  have hc0 : civilFromDays (tsDays 0) = (1970, 1, 1) := by decide
  refine ⟨?_, ?_, ?_, ?_⟩
  · norm_num [qualifies_dropoff, csum, maxBySnd, hm0, DROP_RECENT_SILENCE_M,
      DROP_PEAK_MIN_PLAYS, DROP_PEAK_SHARE]
  · norm_num [qualifies_dropoff, csum, maxBySnd, hm1, DROP_RECENT_SILENCE_M,
      DROP_PEAK_MIN_PLAYS, DROP_PEAK_SHARE]
  · norm_num [analyze_dormant_artists, alistGetD, GRIP_MIN_HOURS, GRIP_DORMANT_YEARS,
      hf0, List.filterMap, List.insertionSort]
  · norm_num [analyze_dormant_artists, alistGetD, GRIP_MIN_HOURS, GRIP_DORMANT_YEARS,
      hf1, hc0, pyRound, roundHalfEven, List.filterMap, List.insertionSort,
      Int.fract]

/-! ### Constant series never spike (C2) -/

theorem muQ_const (counter : Counter) (months : List MonthKey) (c : Nat)
    (hc : ∀ m ∈ months, alistGetD counter m 0 = c) (hne : months ≠ []) :
    muQ counter months = c := by
  unfold muQ
  have hmap : months.map (fun m => ((alistGetD counter m 0 : ℕ) : ℚ))
      = months.map fun _ => (c : ℚ) :=
    List.map_congr_left fun m hm => by rw [hc m hm]
  rw [hmap, List.map_const', List.sum_replicate, nsmul_eq_mul]
  have hlen : (months.length : ℚ) ≠ 0 := by
    simpa [List.length_eq_zero] using hne
  field_simp

theorem varQ_eq_zero_of_const (counter : Counter) (months : List MonthKey) (c : Nat)
    (hc : ∀ m ∈ months, alistGetD counter m 0 = c) : varQ counter months = 0 := by
  unfold varQ
  split
  · next hlen =>
      have hne : months ≠ [] := by
        intro h
        rw [h] at hlen
        simp at hlen
      have hmu : muQ counter months = c := muQ_const counter months c hc hne
      have hmap : (months.map fun m =>
          (((alistGetD counter m 0 : ℕ) : ℚ) - muQ counter months) ^ 2)
            = months.map fun _ => (0 : ℚ) :=
        List.map_congr_left fun m hm => by rw [hc m hm, hmu]; ring
      rw [hmap, List.map_const', List.sum_replicate]
      simp
  · rfl

/-- C2: for a series that is constant across the shared month axis
(including the all-zero and single-month cases), the z-score of every axis
month is exactly 0 — the division is guarded by the stddev-0 check, so no
undefined value (float NaN/inf) can arise. -/
theorem C2_constant_series_zscore (counter : Counter) (all_months : List MonthKey)
    (c : Nat) (hc : ∀ m ∈ all_months, alistGetD counter m 0 = c) :
    ∀ p ∈ zscore_series counter all_months, p.2.2 = (0 : ℝ) := by
  intro p hp
  unfold zscore_series at hp
  by_cases hmn : all_months = []
  · rw [if_pos hmn] at hp
    simp at hp
  · rw [if_neg hmn] at hp
    obtain ⟨m, hm, rfl⟩ := List.mem_map.1 hp
    show zscoreAt counter all_months m = 0
    have hvar : varQ counter all_months = 0 := varQ_eq_zero_of_const _ _ c hc
    simp [zscoreAt, hvar]

/-- Concrete axis for the C2 witness. -/
def wMonths : List MonthKey := [(2020, 1), (2020, 2), (2020, 3)]

/-- Witness for C2: the empty counter is constant (all zero) on a concrete
three-month axis, and every z-score it yields on that axis is 0. -/
theorem C2_witness :
    (∀ m ∈ wMonths, alistGetD ([] : Counter) m 0 = 0)
      ∧ ∀ p ∈ zscore_series ([] : Counter) wMonths, p.2.2 = (0 : ℝ) :=
  ⟨by decide, C2_constant_series_zscore ([] : Counter) wMonths 0 (by decide)⟩

/-! ### Module vs CLI dormancy (C10) -/

theorem fold_atm_extract (music : List Event) (s : Stats) :
    (music.foldl statsStep s).artist_total_ms
      = music.foldl
          (fun acc e => alistSet acc (eKey e) (alistGetD acc (eKey e) 0 + e.ms))
          s.artist_total_ms := by
  induction music generalizing s with
  | nil => rfl
  | cons e t ih =>
      rw [List.foldl_cons, ih]
      rfl

theorem cli_module_total_ms_eq (music : List Event)
    (h : ∀ e ∈ music, e.artist ≠ "") :
    cliArtistTotalMs music = (compute_artist_stats music).artist_total_ms := by
  rw [show compute_artist_stats music = music.foldl statsStep emptyStats from rfl,
    fold_atm_extract]
  show music.foldl _ [] = music.foldl _ []
  generalize ([] : List (String × Int)) = acc
  induction music generalizing acc with
  | nil => rfl
  | cons e t ih =>
      have he : e.artist ≠ "" := h e (List.mem_cons_self _ _)
      have hek : eKey e = e.artist := by simp [eKey, he]
      rw [List.foldl_cons, List.foldl_cons, if_pos he, hek]
      exact ih (fun x hx => h x (List.mem_cons_of_mem _ hx)) _

/-- Concrete one-event history with an empty artist for the C10
counterexample. -/
def cMusic : List Event := [⟨0, 21600000, "t", "al", ""⟩]

/-- Counterexample to C10 as stated: on an event history containing an
empty-artist event, the analysis module's dormancy (which accumulates the
event's duration under the `<unknown>` key) emits a row the CLI's inline
dormancy (which skips empty-artist events when accumulating duration) does
not. -/
theorem C10_counterexample :
    analyze_dormant_artists (compute_artist_stats cMusic).artist_total_ms
        (compute_artist_stats cMusic).artist_last_play 126230400
      ≠ cliDormant cMusic 126230400 := by
  have hstats : (compute_artist_stats cMusic).artist_total_ms
      = [("<unknown>", 21600000)] := by decide
  have hlast : (compute_artist_stats cMusic).artist_last_play
      = [("<unknown>", 0)] := by decide
  have hcli : cliArtistTotalMs cMusic = [] := by decide
  have hf1 : Int.fdiv 126230400 86400 = 1461 := by decide
  have hc0 : civilFromDays (tsDays 0) = (1970, 1, 1) := by decide
  have h1 : analyze_dormant_artists [("<unknown>", 21600000)] [("<unknown>", 0)]
      126230400 = [("<unknown>", 6, 4, (1970, 1, 1))] := by
    norm_num [analyze_dormant_artists, alistGetD, GRIP_MIN_HOURS, GRIP_DORMANT_YEARS,
      hf1, hc0, pyRound, roundHalfEven, List.filterMap, List.insertionSort, Int.fract]
  have h2 : analyze_dormant_artists [] [("<unknown>", 0)] 126230400 = [] := rfl
  rw [show cliDormant cMusic 126230400
      = analyze_dormant_artists (cliArtistTotalMs cMusic)
          (compute_artist_stats cMusic).artist_last_play 126230400 from rfl,
    hstats, hlast, hcli, h1, h2]
  simp

/-- C10 (amended): the module dormancy computation and the CLI's inline
dormancy computation produce identical dormant-artist lists whenever every
event carries a non-empty artist; they can differ (only) on the
`<unknown>` aggregate of empty-artist events. -/
theorem C10_dormancy_agree_no_empty_artist (music : List Event) (now : Int)
    (h : ∀ e ∈ music, e.artist ≠ "") :
    analyze_dormant_artists (compute_artist_stats music).artist_total_ms
        (compute_artist_stats music).artist_last_play now
      = cliDormant music now := by
  unfold cliDormant
  rw [cli_module_total_ms_eq music h]

/-- Witness for the amended C10 at a concrete two-event history. -/
theorem C10_witness :
    (∀ e ∈ wMusic, e.artist ≠ "") ∧
      analyze_dormant_artists (compute_artist_stats wMusic).artist_total_ms
          (compute_artist_stats wMusic).artist_last_play 0
        = cliDormant wMusic 0 :=
  ⟨by decide, C10_dormancy_agree_no_empty_artist wMusic 0 (by decide)⟩

/-! ### Two-pointer sliding window (C9) -/

theorem advance_ge (t : Nat → Int) (W : Int) (j : Nat) :
    ∀ fuel i0, i0 ≤ advance t W j fuel i0 := by
  intro fuel
  induction fuel with
  | zero => intro i0; simp [advance]
  | succ n ih =>
      intro i0
      unfold advance
      split
      · exact le_trans (Nat.le_succ i0) (ih (i0 + 1))
      · exact le_refl _

theorem advance_le_add (t : Nat → Int) (W : Int) (j : Nat) :
    ∀ fuel i0, advance t W j fuel i0 ≤ i0 + fuel := by
  intro fuel
  induction fuel with
  | zero => intro i0; simp [advance]
  | succ n ih =>
      intro i0
      unfold advance
      split
      · exact le_trans (ih (i0 + 1)) (by omega)
      · omega

theorem advance_cond (t : Nat → Int) (W : Int) (j : Nat) (hW : 0 ≤ W) :
    ∀ fuel i0, i0 ≤ j → fuel = j - i0 →
      t j - t (advance t W j fuel i0) ≤ W := by
  intro fuel
  induction fuel with
  | zero =>
      intro i0 hij hf
      have hi : i0 = j := by omega
      subst hi
      simp [advance]
      omega
  | succ n ih =>
      intro i0 hij hf
      unfold advance
      split
      · exact ih (i0 + 1) (by omega) (by omega)
      · next hcond => omega

theorem advance_below (t : Nat → Int) (W : Int) (j : Nat) :
    ∀ fuel i0 k, i0 ≤ k → k < advance t W j fuel i0 → W < t j - t k := by
  intro fuel
  induction fuel with
  | zero => intro i0 k h1 h2; simp [advance] at h2; omega
  | succ n ih =>
      intro i0 k h1 h2
      unfold advance at h2
      split at h2
      · next hcond =>
          rcases eq_or_lt_of_le h1 with rfl | hlt
          · exact hcond
          · exact ih (i0 + 1) k hlt h2
      · omega

theorem advance_mono (t : Nat → Int) {W W' : Int} (j : Nat) (hW : 0 ≤ W)
    (hWW : W ≤ W') {i0 i0' : Nat} (h01 : i0' ≤ i0) (hij : i0 ≤ j) :
    advance t W' j (j - i0') i0' ≤ advance t W j (j - i0) i0 := by
  by_contra hcon
  push_neg at hcon
  have h1 : t j - t (advance t W j (j - i0) i0) ≤ W :=
    advance_cond t W j hW _ i0 hij rfl
  have h2 : W' < t j - t (advance t W j (j - i0) i0) :=
    advance_below t W' j _ i0' _ (le_trans h01 (advance_ge t W j _ i0)) hcon
  omega

theorem tps_fst_le (t : Nat → Int) (W : Int) : ∀ j, (twoPtrState t W j).1 ≤ j := by
  intro j
  induction j with
  | zero => simp [twoPtrState]
  | succ n ih =>
      have h := advance_le_add t W n (n - (twoPtrState t W n).1) (twoPtrState t W n).1
      simp only [twoPtrState]
      omega

theorem tps_mono (t : Nat → Int) {W W' : Int} (hW : 0 ≤ W) (hWW : W ≤ W') :
    ∀ j, (twoPtrState t W' j).1 ≤ (twoPtrState t W j).1
      ∧ (twoPtrState t W j).2 ≤ (twoPtrState t W' j).2 := by
  intro j
  induction j with
  | zero => simp [twoPtrState]
  | succ n ih =>
      obtain ⟨ih1, ih2⟩ := ih
      have hb : (twoPtrState t W n).1 ≤ n := tps_fst_le t W n
      have hb' : (twoPtrState t W' n).1 ≤ n := tps_fst_le t W' n
      have hadv : advance t W' n (n - (twoPtrState t W' n).1) (twoPtrState t W' n).1
          ≤ advance t W n (n - (twoPtrState t W n).1) (twoPtrState t W n).1 :=
        advance_mono t n hW hWW ih1 hb
      have hr : advance t W n (n - (twoPtrState t W n).1) (twoPtrState t W n).1 ≤ n := by
        have := advance_le_add t W n (n - (twoPtrState t W n).1) (twoPtrState t W n).1
        omega
      constructor
      · simp only [twoPtrState]
        exact hadv
      · simp only [twoPtrState]
        exact max_le_max ih2 (by omega)

theorem tps_full (t : Nat → Int) (W : Int) (n : Nat)
    (hspan : ∀ j < n, t j - t 0 ≤ W) :
    ∀ j ≤ n, twoPtrState t W j = (0, j) := by
  intro j
  induction j with
  | zero => intro _; rfl
  | succ m ih =>
      intro hm
      have hstate := ih (by omega)
      have hadv : advance t W m (m - 0) 0 = 0 := by
        cases m with
        | zero => rfl
        | succ m' =>
            show advance t W (m' + 1) (m' + 1 - 0) 0 = 0
            rw [Nat.sub_zero]
            unfold advance
            rw [if_neg]
            have := hspan (m' + 1) (by omega)
            omega
      simp only [twoPtrState, hstate, hadv]
      have : max m (m - 0 + 1) = m + 1 := by omega
      simp [this]

/-- The span from the earliest to the latest timestamp of a (sorted) list. -/
def tspan (times : List Int) : Int :=
  times.getD (times.length - 1) 0 - times.getD 0 0

theorem sorted_getD_mono {l : List Int} (hs : List.Sorted (fun x y => x ≤ y) l)
    {i j : Nat} (hij : i ≤ j) (hj : j < l.length) :
    l.getD i 0 ≤ l.getD j 0 := by
  have hi : i < l.length := lt_of_le_of_lt hij hj
  rw [List.getD_eq_getElem l 0 hi, List.getD_eq_getElem l 0 hj]
  rcases eq_or_lt_of_le hij with rfl | hlt
  · exact le_refl _
  · exact List.Sorted.rel_get_of_lt hs (by exact hlt)

/-- C9: on a sorted timestamp list, the two-pointer maximum window count of
the obsession detector is monotone in the window width, and equals the full
play count as soon as the width covers the whole span. -/
theorem C9_window_monotone (times : List Int) (W W' : Int)
    (hs : List.Sorted (fun x y => x ≤ y) times) (h0 : 0 ≤ W) (hWW : W ≤ W') :
    maxWindow times W ≤ maxWindow times W'
      ∧ (tspan times ≤ W → maxWindow times W = times.length) := by
  constructor
  · exact (tps_mono (fun k => times.getD k 0) h0 hWW times.length).2
  · intro hsp
    have hj : ∀ j < times.length, times.getD j 0 - times.getD 0 0 ≤ W := by
      intro j hjl
      have hmono : times.getD j 0 ≤ times.getD (times.length - 1) 0 :=
        sorted_getD_mono hs (by omega) (by omega)
      unfold tspan at hsp
      omega
    have h := tps_full (fun k => times.getD k 0) W times.length hj times.length
      (le_refl _)
    unfold maxWindow
    rw [h]

/-- Witness for C9 at a concrete sorted timestamp list and widths. -/
theorem C9_witness :
    List.Sorted (fun x y => x ≤ y) [(0 : Int), 10, 20] ∧ (0 : Int) ≤ 20
      ∧ (20 : Int) ≤ 30
      ∧ (maxWindow [0, 10, 20] 20 ≤ maxWindow [0, 10, 20] 30
        ∧ (tspan [0, 10, 20] ≤ 20 →
            maxWindow [0, 10, 20] 20 = ([(0 : Int), 10, 20] : List Int).length)) :=
  ⟨by decide, by decide, by decide,
    C9_window_monotone [0, 10, 20] 20 30 (by decide) (by decide) (by decide)⟩

/-! ### Spike detector characterization (C6) -/

theorem mkLt_trichot (a b : MonthKey) : mkLt a b ∨ a = b ∨ mkLt b a := by
  obtain ⟨a1, a2⟩ := a
  obtain ⟨b1, b2⟩ := b
  simp only [mkLt, Prod.mk.injEq]
  omega

theorem mkLt_trans {a b c : MonthKey} (h1 : mkLt a b) (h2 : mkLt b c) : mkLt a c := by
  obtain ⟨a1, a2⟩ := a
  obtain ⟨b1, b2⟩ := b
  obtain ⟨c1, c2⟩ := c
  simp only [mkLt] at h1 h2 ⊢
  omega

instance : IsTotal SpikeA spikeALe :=
  ⟨by
    intro x y
    rcases mkLt_trichot x.1 y.1 with h | h | h
    · exact Or.inl (Or.inl h)
    · rcases le_total y.2.2.1 x.2.2.1 with hc | hc
      · exact Or.inl (Or.inr ⟨h, hc⟩)
      · exact Or.inr (Or.inr ⟨h.symm, hc⟩)
    · exact Or.inr (Or.inl h)⟩

instance : IsTrans SpikeA spikeALe :=
  ⟨by
    intro x y z hxy hyz
    rcases hxy with h1 | ⟨h1, c1⟩ <;> rcases hyz with h2 | ⟨h2, c2⟩
    · exact Or.inl (mkLt_trans h1 h2)
    · exact Or.inl (by rw [← h2]; exact h1)
    · exact Or.inl (by rw [h1]; exact h2)
    · exact Or.inr ⟨h1.trans h2, le_trans c2 c1⟩⟩

instance : IsTotal SpikeAl spikeAlLe :=
  ⟨by
    intro x y
    rcases mkLt_trichot x.1 y.1 with h | h | h
    · exact Or.inl (Or.inl h)
    · rcases le_total y.2.2.2.1 x.2.2.2.1 with hc | hc
      · exact Or.inl (Or.inr ⟨h, hc⟩)
      · exact Or.inr (Or.inr ⟨h.symm, hc⟩)
    · exact Or.inr (Or.inl h)⟩

instance : IsTrans SpikeAl spikeAlLe :=
  ⟨by
    intro x y z hxy hyz
    rcases hxy with h1 | ⟨h1, c1⟩ <;> rcases hyz with h2 | ⟨h2, c2⟩
    · exact Or.inl (mkLt_trans h1 h2)
    · exact Or.inl (by rw [← h2]; exact h1)
    · exact Or.inl (by rw [h1]; exact h2)
    · exact Or.inr ⟨h1.trans h2, le_trans c2 c1⟩⟩

theorem mem_allMonths {amc : List (String × Counter)} {mk : MonthKey} :
    mk ∈ allMonths amc ↔ ∃ p ∈ amc, mk ∈ alistKeys p.2 := by
  unfold allMonths
  rw [List.mem_insertionSort, List.mem_dedup, List.mem_flatMap]
  constructor
  · rintro ⟨p, hp, hmk⟩
    exact ⟨p, hp, by simpa [alistKeys] using hmk⟩
  · rintro ⟨p, hp, hmk⟩
    exact ⟨p, hp, by simpa [alistKeys] using hmk⟩

theorem mem_zscore_series {counter : Counter} {months : List MonthKey}
    {q : MonthKey × Nat × ℝ} :
    q ∈ zscore_series counter months ↔
      q.1 ∈ months ∧ q.2.1 = alistGetD counter q.1 0
        ∧ q.2.2 = zscoreAt counter months q.1 := by
  unfold zscore_series
  by_cases h : months = []
  · simp [h]
  · rw [if_neg h, List.mem_map]
    obtain ⟨qm, qv, qz⟩ := q
    constructor
    · rintro ⟨m, hm, heq⟩
      injection heq with h1 h2
      injection h2 with h2 h3
      subst h1
      exact ⟨hm, h2.symm, h3.symm⟩
    · rintro ⟨h1, h2, h3⟩
      simp only at h1 h2 h3
      exact ⟨qm, h1, by rw [← h2, ← h3]⟩

theorem analyze_spikes_fst (amc : List (String × Counter))
    (albmc : List ((String × String) × Counter)) :
    (analyze_spikes amc albmc).1
      = List.insertionSort spikeALe
          (amc.flatMap fun p =>
            (zscore_series p.2 (allMonths amc)).filterMap fun q =>
              if SPIKE_MIN_PLAYS ≤ q.2.1 ∧ SPIKE_Z ≤ q.2.2 then
                some (q.1, p.1, q.2.1, pyRoundR q.2.2 2)
              else none) := rfl

theorem analyze_spikes_snd (amc : List (String × Counter))
    (albmc : List ((String × String) × Counter)) :
    (analyze_spikes amc albmc).2
      = List.insertionSort spikeAlLe
          (albmc.flatMap fun p =>
            (zscore_series p.2 (allMonths amc)).filterMap fun q =>
              if max 5 (SPIKE_MIN_PLAYS / 2) ≤ q.2.1 ∧ SPIKE_Z ≤ q.2.2 then
                some (q.1, p.1.1, p.1.2, q.2.1, pyRoundR q.2.2 2)
              else none) := rfl

theorem exists_val_of_mem_alistKeys {α β : Type} {l : List (α × β)} {k : α}
    (h : k ∈ alistKeys l) : ∃ v, (k, v) ∈ l := by
  obtain ⟨p, hp, hk⟩ := List.mem_map.1 h
  exact ⟨p.2, by rwa [show (k, p.2) = p from Prod.ext hk.symm rfl]⟩

/-- C6: the spike detector's artist list contains exactly the
(month, artist) pairs with monthly count at least 60 and z-score at least
2.0; the album list exactly the (month, artist, album) triples with count at
least `max 5 (60 / 2)` and z-score at least 2.0; both lists sorted by month
ascending with ties broken by count descending. -/
theorem C6_spike_exactness (music : List Event) :
    (∀ mk a,
      (∃ v z, (mk, a, v, z) ∈
          (analyze_spikes (compute_artist_stats music).artist_month_counts
            (compute_artist_stats music).album_month_counts).1)
        ↔ SPIKE_MIN_PLAYS ≤
            alistGetD (alistGetD (compute_artist_stats music).artist_month_counts a [])
              mk 0
          ∧ SPIKE_Z ≤ zscoreAt
              (alistGetD (compute_artist_stats music).artist_month_counts a [])
              (allMonths (compute_artist_stats music).artist_month_counts) mk)
    ∧ (∀ mk a al,
      (∃ v z, (mk, a, al, v, z) ∈
          (analyze_spikes (compute_artist_stats music).artist_month_counts
            (compute_artist_stats music).album_month_counts).2)
        ↔ max 5 (SPIKE_MIN_PLAYS / 2) ≤
            alistGetD
              (alistGetD (compute_artist_stats music).album_month_counts (a, al) [])
              mk 0
          ∧ SPIKE_Z ≤ zscoreAt
              (alistGetD (compute_artist_stats music).album_month_counts (a, al) [])
              (allMonths (compute_artist_stats music).artist_month_counts) mk)
    ∧ List.Sorted spikeALe
        (analyze_spikes (compute_artist_stats music).artist_month_counts
          (compute_artist_stats music).album_month_counts).1
    ∧ List.Sorted spikeAlLe
        (analyze_spikes (compute_artist_stats music).artist_month_counts
          (compute_artist_stats music).album_month_counts).2 := by
  obtain ⟨hnd1, hnd2, hnd3, hin1, hin2, hin3⟩ := statsWF_compute music
  have hsub := monthsSub_compute music
  refine ⟨?_, ?_, ?_, ?_⟩
  · intro mk a
    rw [analyze_spikes_fst]
    constructor
    · rintro ⟨v, z, hmem⟩
      rw [List.mem_insertionSort, List.mem_flatMap] at hmem
      obtain ⟨p, hp, hq⟩ := hmem
      obtain ⟨q, hq1, hq2⟩ := List.mem_filterMap.1 hq
      by_cases hc : SPIKE_MIN_PLAYS ≤ q.2.1 ∧ SPIKE_Z ≤ q.2.2
      · rw [if_pos hc] at hq2
        injection hq2 with htup
        injection htup with em hrest
        injection hrest with ea hrest2
        injection hrest2 with ev ez
        obtain ⟨hqm, hqv, hqz⟩ := mem_zscore_series.1 hq1
        have hpmem : (a, p.2) ∈ (compute_artist_stats music).artist_month_counts := by
          rw [← ea]
          simpa using hp
        have hpa : alistGetD (compute_artist_stats music).artist_month_counts a []
            = p.2 := alistGetD_of_mem hnd1 hpmem []
        rw [hpa, ← em, ← hqv]
        exact ⟨hc.1, by rw [← hqz]; exact hc.2⟩
      · rw [if_neg hc] at hq2
        exact absurd hq2 (by simp)
    · rintro ⟨hv, hz⟩
      have hv0 : alistGetD
          (alistGetD (compute_artist_stats music).artist_month_counts a []) mk 0 ≠ 0 := by
        rw [show SPIKE_MIN_PLAYS = 60 from rfl] at hv
        omega
      have hkv := mem_of_alistGetD_ne hv0
      have hmne : alistGetD (compute_artist_stats music).artist_month_counts a []
          ≠ ([] : Counter) := by
        intro h
        rw [h] at hkv
        simp at hkv
      have hamem : (a, alistGetD (compute_artist_stats music).artist_month_counts a [])
          ∈ (compute_artist_stats music).artist_month_counts :=
        mem_of_alistGetD_ne hmne
      have hmkax : mk ∈ allMonths (compute_artist_stats music).artist_month_counts :=
        mem_allMonths.2 ⟨_, hamem, List.mem_map_of_mem Prod.fst hkv⟩
      refine ⟨alistGetD
          (alistGetD (compute_artist_stats music).artist_month_counts a []) mk 0,
        pyRoundR (zscoreAt
          (alistGetD (compute_artist_stats music).artist_month_counts a [])
          (allMonths (compute_artist_stats music).artist_month_counts) mk) 2, ?_⟩
      rw [List.mem_insertionSort, List.mem_flatMap]
      refine ⟨(a, alistGetD (compute_artist_stats music).artist_month_counts a []),
        hamem, ?_⟩
      rw [List.mem_filterMap]
      refine ⟨(mk,
        alistGetD
          (alistGetD (compute_artist_stats music).artist_month_counts a []) mk 0,
        zscoreAt (alistGetD (compute_artist_stats music).artist_month_counts a [])
          (allMonths (compute_artist_stats music).artist_month_counts) mk),
        mem_zscore_series.2 ⟨hmkax, rfl, rfl⟩, ?_⟩
      rw [if_pos ⟨hv, hz⟩]
  · intro mk a al
    rw [analyze_spikes_snd]
    constructor
    · rintro ⟨v, z, hmem⟩
      rw [List.mem_insertionSort, List.mem_flatMap] at hmem
      obtain ⟨p, hp, hq⟩ := hmem
      obtain ⟨q, hq1, hq2⟩ := List.mem_filterMap.1 hq
      by_cases hc : max 5 (SPIKE_MIN_PLAYS / 2) ≤ q.2.1 ∧ SPIKE_Z ≤ q.2.2
      · rw [if_pos hc] at hq2
        injection hq2 with htup
        injection htup with em hrest
        injection hrest with ea hrest2
        injection hrest2 with eal hrest3
        injection hrest3 with ev ez
        obtain ⟨hqm, hqv, hqz⟩ := mem_zscore_series.1 hq1
        have hpmem : ((a, al), p.2)
            ∈ (compute_artist_stats music).album_month_counts := by
          rw [show (a, al) = p.1 from by rw [← ea, ← eal]]
          simpa using hp
        have hpa : alistGetD (compute_artist_stats music).album_month_counts (a, al) []
            = p.2 := alistGetD_of_mem hnd2 hpmem []
        rw [hpa, ← em, ← hqv]
        exact ⟨hc.1, by rw [← hqz]; exact hc.2⟩
      · rw [if_neg hc] at hq2
        exact absurd hq2 (by simp)
    · rintro ⟨hv, hz⟩
      have hv0 : alistGetD
          (alistGetD (compute_artist_stats music).album_month_counts (a, al) [])
            mk 0 ≠ 0 := by
        rw [show max 5 (SPIKE_MIN_PLAYS / 2) = 30 from rfl] at hv
        omega
      have hkv := mem_of_alistGetD_ne hv0
      have hmne : alistGetD (compute_artist_stats music).album_month_counts (a, al) []
          ≠ ([] : Counter) := by
        intro h
        rw [h] at hkv
        simp at hkv
      have hamem : ((a, al),
          alistGetD (compute_artist_stats music).album_month_counts (a, al) [])
            ∈ (compute_artist_stats music).album_month_counts :=
        mem_of_alistGetD_ne hmne
      have hart : mk ∈ alistKeys
          (alistGetD (compute_artist_stats music).artist_month_counts a []) :=
        hsub a al mk (List.mem_map_of_mem Prod.fst hkv)
      obtain ⟨w, hw⟩ := exists_val_of_mem_alistKeys hart
      have hartne : alistGetD (compute_artist_stats music).artist_month_counts a []
          ≠ ([] : Counter) := by
        intro h
        rw [h] at hw
        simp at hw
      have hartmem :
          (a, alistGetD (compute_artist_stats music).artist_month_counts a [])
            ∈ (compute_artist_stats music).artist_month_counts :=
        mem_of_alistGetD_ne hartne
      have hmkax : mk ∈ allMonths (compute_artist_stats music).artist_month_counts :=
        mem_allMonths.2 ⟨_, hartmem, hart⟩
      refine ⟨alistGetD
          (alistGetD (compute_artist_stats music).album_month_counts (a, al) []) mk 0,
        pyRoundR (zscoreAt
          (alistGetD (compute_artist_stats music).album_month_counts (a, al) [])
          (allMonths (compute_artist_stats music).artist_month_counts) mk) 2, ?_⟩
      rw [List.mem_insertionSort, List.mem_flatMap]
      refine ⟨((a, al),
        alistGetD (compute_artist_stats music).album_month_counts (a, al) []),
        hamem, ?_⟩
      rw [List.mem_filterMap]
      refine ⟨(mk,
        alistGetD
          (alistGetD (compute_artist_stats music).album_month_counts (a, al) []) mk 0,
        zscoreAt (alistGetD (compute_artist_stats music).album_month_counts (a, al) [])
          (allMonths (compute_artist_stats music).artist_month_counts) mk),
        mem_zscore_series.2 ⟨hmkax, rfl, rfl⟩, ?_⟩
      rw [if_pos ⟨hv, hz⟩]
  · rw [analyze_spikes_fst]
    exact List.sorted_insertionSort spikeALe _
  · rw [analyze_spikes_snd]
    exact List.sorted_insertionSort spikeAlLe _

/-! ### Obsession detector qualification (C3) -/

theorem obsDedup_subset : ∀ (l : List ObsRow) (seen : List (String × String)),
    ∀ r ∈ obsDedup l seen, r ∈ l := by
  intro l
  induction l with
  | nil => intro seen r hr; simp [obsDedup] at hr
  | cons x t ih =>
      intro seen r hr
      unfold obsDedup at hr
      split at hr
      · exact List.mem_cons_of_mem _ (ih _ r hr)
      · rcases List.mem_cons.1 hr with rfl | hr'
        · exact List.mem_cons_self _ _
        · exact List.mem_cons_of_mem _ (ih _ r hr')

theorem domScan_fold_max (a : String) (mk : MonthKey) :
    ∀ (l : List ((String × String) × Counter)) (acc : Option String × Nat),
      (∀ p ∈ l, p.1.1 = a →
        alistGetD p.2 mk 0
          ≤ (l.foldl (fun acc p =>
              if p.1.1 = a then
                if acc.2 < alistGetD p.2 mk 0 then (some p.1.2, alistGetD p.2 mk 0)
                else acc
              else acc) acc).2)
      ∧ acc.2 ≤ (l.foldl (fun acc p =>
          if p.1.1 = a then
            if acc.2 < alistGetD p.2 mk 0 then (some p.1.2, alistGetD p.2 mk 0)
            else acc
          else acc) acc).2 := by
  intro l
  induction l with
  | nil => intro acc; exact ⟨by simp, le_refl _⟩
  | cons p t ih =>
      intro acc
      rw [List.foldl_cons]
      obtain ⟨ih1, ih2⟩ := ih
        (if p.1.1 = a then
          if acc.2 < alistGetD p.2 mk 0 then (some p.1.2, alistGetD p.2 mk 0)
          else acc
        else acc)
      have hstep : acc.2 ≤ (if p.1.1 = a then
          if acc.2 < alistGetD p.2 mk 0 then (some p.1.2, alistGetD p.2 mk 0)
          else acc
        else acc).2 := by
        split
        · split
          · next h => exact le_of_lt h
          · exact le_refl _
        · exact le_refl _
      refine ⟨?_, le_trans hstep ih2⟩
      intro q hq hqa
      rcases List.mem_cons.1 hq with rfl | hq'
      · have hhead : alistGetD q.2 mk 0 ≤ (if q.1.1 = a then
            if acc.2 < alistGetD q.2 mk 0 then (some q.1.2, alistGetD q.2 mk 0)
            else acc
          else acc).2 := by
          rw [if_pos hqa]
          split
          · exact le_refl _
          · next h => exact not_lt.1 h
        exact le_trans hhead ih2
      · exact ih1 q hq' hqa

theorem domScan_fold_some (a : String) (mk : MonthKey) :
    ∀ (l : List ((String × String) × Counter)) (acc : Option String × Nat),
      l.foldl (fun acc p =>
          if p.1.1 = a then
            if acc.2 < alistGetD p.2 mk 0 then (some p.1.2, alistGetD p.2 mk 0)
            else acc
          else acc) acc = acc
      ∨ ∃ al c, ((a, al), c) ∈ l
          ∧ l.foldl (fun acc p =>
              if p.1.1 = a then
                if acc.2 < alistGetD p.2 mk 0 then (some p.1.2, alistGetD p.2 mk 0)
                else acc
              else acc) acc = (some al, alistGetD c mk 0) := by
  intro l
  induction l with
  | nil => intro acc; exact Or.inl rfl
  | cons p t ih =>
      intro acc
      rw [List.foldl_cons]
      rcases ih (if p.1.1 = a then
          if acc.2 < alistGetD p.2 mk 0 then (some p.1.2, alistGetD p.2 mk 0)
          else acc
        else acc) with h | h
      · rw [h]
        by_cases hpa : p.1.1 = a
        · by_cases hlt : acc.2 < alistGetD p.2 mk 0
          · refine Or.inr ⟨p.1.2, p.2, ?_, ?_⟩
            · have : (a, p.1.2) = p.1 := by
                rw [← hpa]
              rw [this]
              exact List.mem_cons_self _ _
            · rw [if_pos hpa, if_pos hlt]
          · rw [if_pos hpa, if_neg hlt]
            exact Or.inl rfl
        · rw [if_neg hpa]
          exact Or.inl rfl
      · obtain ⟨al, c, hmem, heq⟩ := h
        exact Or.inr ⟨al, c, List.mem_cons_of_mem _ hmem, heq⟩

theorem dominantScan_max (albmc : List ((String × String) × Counter)) (a : String)
    (mk : MonthKey) :
    ∀ p ∈ albmc, p.1.1 = a → alistGetD p.2 mk 0 ≤ (dominantScan albmc a mk).2 :=
  (domScan_fold_max a mk albmc (none, 0)).1

theorem dominantScan_some {albmc : List ((String × String) × Counter)} {a : String}
    {mk : MonthKey} {al : String} {dom : Nat}
    (h : dominantScan albmc a mk = (some al, dom)) :
    ∃ c, ((a, al), c) ∈ albmc ∧ alistGetD c mk 0 = dom := by
  rcases domScan_fold_some a mk albmc (none, 0) with h' | h'
  · rw [show dominantScan albmc a mk
        = albmc.foldl (fun acc p =>
            if p.1.1 = a then
              if acc.2 < alistGetD p.2 mk 0 then (some p.1.2, alistGetD p.2 mk 0)
              else acc
            else acc) (none, 0) from rfl, h'] at h
    exact absurd (congrArg Prod.fst h) (by simp)
  · obtain ⟨al', c, hmem, heq⟩ := h'
    rw [show dominantScan albmc a mk
        = albmc.foldl (fun acc p =>
            if p.1.1 = a then
              if acc.2 < alistGetD p.2 mk 0 then (some p.1.2, alistGetD p.2 mk 0)
              else acc
            else acc) (none, 0) from rfl, heq] at h
    injection h with h1 h2
    injection h1 with h1
    subst h1
    exact ⟨c, hmem, h2⟩

/-- The obsession emission body with all local bindings expanded. -/
def obsBody (music : List Event)
    (album_month_counts : List ((String × String) × Counter))
    (p : String × Counter) (q : MonthKey × Nat) : List ObsRow :=
  if q.2 < ALBUM_MIN_MONTH_PLAYS then []
  else
    match dominantScan album_month_counts p.1 q.1 with
    | (some al, dom) =>
        if al ≠ "" ∧ ALBUM_DOMINANCE ≤ (dom : ℚ) / (q.2 : ℚ) then
          if 0 < csum (alistGetD album_month_counts (p.1, al) [])
              ∧ ALBUM_CONCENTRATION ≤
                ((maxWindow (List.insertionSort (fun x y => x ≤ y)
                  (alistGetD (album_datetimes music) (p.1, al) [])) SIXTY_DAYS : ℚ))
                  / (csum (alistGetD album_month_counts (p.1, al) []) : ℚ) then
            [(q.1, p.1, al, dom, q.2, csum (alistGetD album_month_counts (p.1, al) []),
              pyRound ((maxWindow (List.insertionSort (fun x y => x ≤ y)
                (alistGetD (album_datetimes music) (p.1, al) [])) SIXTY_DAYS : ℚ)
                  / (csum (alistGetD album_month_counts (p.1, al) []) : ℚ)) 2)]
          else []
        else []
    | (none, _) => []

theorem analyze_obsessions_eq (music : List Event)
    (amtc : List (String × Counter))
    (albmc : List ((String × String) × Counter)) :
    analyze_one_album_obsessions music amtc albmc
      = obsDedup (List.insertionSort obsLe
          (amtc.flatMap fun p => p.2.flatMap fun q => obsBody music albmc p q)) [] :=
  rfl

/-- The qualification conditions C3 asserts of every emitted obsession row
`(mk, a, al, dom, total, life, conc)`: the artist's month total is at least
20; the dominant album's plays are at least 80% of that total; `dom` is that
album's count in that month and no album of the artist beats it; the album's
lifetime count `life` is positive; and the album's densest 60-day window
holds at least 70% of its lifetime plays. -/
def obsQualified (music : List Event)
    (album_month_counts : List ((String × String) × Counter)) (r : ObsRow) : Prop :=
  ALBUM_MIN_MONTH_PLAYS ≤ r.2.2.2.2.1
  ∧ ALBUM_DOMINANCE * (r.2.2.2.2.1 : ℚ) ≤ (r.2.2.2.1 : ℚ)
  ∧ r.2.2.2.1 = alistGetD (alistGetD album_month_counts (r.2.1, r.2.2.1) []) r.1 0
  ∧ (∀ p ∈ album_month_counts, p.1.1 = r.2.1 → alistGetD p.2 r.1 0 ≤ r.2.2.2.1)
  ∧ 0 < r.2.2.2.2.2.1
  ∧ r.2.2.2.2.2.1 = csum (alistGetD album_month_counts (r.2.1, r.2.2.1) [])
  ∧ ALBUM_CONCENTRATION * (r.2.2.2.2.2.1 : ℚ)
      ≤ (maxWindow (List.insertionSort (fun x y => x ≤ y)
          (alistGetD (album_datetimes music) (r.2.1, r.2.2.1) [])) SIXTY_DAYS : ℚ)

/-- C3: the obsession detector emits a row only if the artist played at
least 20 times that month, the single most-played album of that month
accounts for at least 80% of those plays, and at least 70% of that album's
lifetime plays fall inside some 60-day window (two-pointer maximum over the
sorted play timestamps). -/
theorem C3_obsession_only_if (music : List Event) :
    ∀ r ∈ analyze_one_album_obsessions music
        (compute_artist_stats music).artist_month_total_counts
        (compute_artist_stats music).album_month_counts,
      obsQualified music (compute_artist_stats music).album_month_counts r := by
  intro r hr
  obtain ⟨hnd1, hnd2, hnd3, hin1, hin2, hin3⟩ := statsWF_compute music
  rw [analyze_obsessions_eq] at hr
  have hr1 := obsDedup_subset _ _ r hr
  rw [List.mem_insertionSort, List.mem_flatMap] at hr1
  obtain ⟨p, hp, hr2⟩ := hr1
  rw [List.mem_flatMap] at hr2
  obtain ⟨q, hq, hr3⟩ := hr2
  unfold obsBody at hr3
  split at hr3
  · exact absurd hr3 (List.not_mem_nil r)
  next h20 =>
    split at hr3
    next al dom heq =>
      split at hr3
      next hdc =>
        split at hr3
        next hcc =>
          rw [List.mem_singleton] at hr3
          subst hr3
          obtain ⟨c, hcmem, hcval⟩ := dominantScan_some heq
          have hq2pos : (0 : ℚ) < (q.2 : ℚ) := by
            have h20' : ALBUM_MIN_MONTH_PLAYS ≤ q.2 := not_lt.1 h20
            rw [show ALBUM_MIN_MONTH_PLAYS = 20 from rfl] at h20'
            exact_mod_cast by omega
          have hlookup : alistGetD (compute_artist_stats music).album_month_counts
              (p.1, al) [] = c := alistGetD_of_mem hnd2 hcmem []
          have hlifepos : (0 : ℚ) < (csum (alistGetD
              (compute_artist_stats music).album_month_counts (p.1, al) []) : ℚ) :=
            by exact_mod_cast hcc.1
          refine ⟨not_lt.1 h20, ?_, ?_, ?_, hcc.1, rfl, ?_⟩
          · exact (le_div_iff₀ hq2pos).1 hdc.2
          · rw [hlookup, hcval]
          · intro p' hp' hpa
            have h := dominantScan_max
              (compute_artist_stats music).album_month_counts p.1 q.1 p' hp' hpa
            rw [heq] at h
            exact h
          · exact (le_div_iff₀ hlifepos).1 hcc.2
        next hcc => exact absurd hr3 (List.not_mem_nil r)
      next hdc => exact absurd hr3 (List.not_mem_nil r)
    next dom heq => exact absurd hr3 (List.not_mem_nil r)

/-- Concrete 20-play single-album history for the C3 witness. -/
def wObs : List Event := (List.range 20).map fun k => ⟨(k : Int) * 86400, 1, "t", "X", "A"⟩

/-- The timestamps of `wObs`. -/
def wTimes : List Int := (List.range 20).map fun k => (k : Int) * 86400

set_option maxRecDepth 4000 in
/-- Witness for C3: the row emitted on `wObs` satisfies all qualification
conditions. -/
theorem C3_witness :
    ((1970, 1), "A", "X", 20, 20, 20, (1 : ℚ)) ∈ analyze_one_album_obsessions wObs
        (compute_artist_stats wObs).artist_month_total_counts
        (compute_artist_stats wObs).album_month_counts
      ∧ obsQualified wObs (compute_artist_stats wObs).album_month_counts
          ((1970, 1), "A", "X", 20, 20, 20, (1 : ℚ)) := by
  have h1 : (compute_artist_stats wObs).artist_month_total_counts
      = [("A", [((1970, 1), 20)])] := by decide
  have h2 : (compute_artist_stats wObs).album_month_counts
      = [(("A", "X"), [((1970, 1), 20)])] := by decide
  have h3 : album_datetimes wObs = [(("A", "X"), wTimes)] := by decide
  have h4 : dominantScan [(("A", "X"), [((1970, 1), 20)])] "A" (1970, 1)
      = (some "X", 20) := by decide
  have h5 : maxWindow (List.insertionSort (fun x y => x ≤ y) wTimes) SIXTY_DAYS
      = 20 := by decide
  have hmem : ((1970, 1), "A", "X", 20, 20, 20, (1 : ℚ))
      ∈ analyze_one_album_obsessions wObs
          (compute_artist_stats wObs).artist_month_total_counts
          (compute_artist_stats wObs).album_month_counts := by
    rw [analyze_obsessions_eq, h1, h2]
    simp only [List.flatMap_cons, List.flatMap_nil, List.append_nil]
    unfold obsBody
    simp only [h3, h4]
    simp only [alistGetD, if_pos]
    rw [h5]
    norm_num [obsDedup, csum, ALBUM_MIN_MONTH_PLAYS, ALBUM_DOMINANCE,
      ALBUM_CONCENTRATION, pyRound, roundHalfEven, Int.fract,
      List.insertionSort, List.orderedInsert]
  exact ⟨hmem, C3_obsession_only_if wObs _ hmem⟩
